import Mathlib

/-!
# ByteBufferC: a verification development of `bytebuffer.c`

The C program is embedded shallowly.

* Bytes, cursors and lengths are natural numbers; a `uint32_t` computation is taken
  modulo `2 ^ 32` and a `size_t` computation modulo `2 ^ 64` (an LP64 host).
* Storage is addressed: `Memory` maps an address to the block of bytes that lives
  there, and a `byte_buffer` holds the address of its storage in `buf`,
  exactly as the C struct holds a pointer.  Two buffers may therefore share storage.
* An access outside a live block is undefined behaviour in C; the embedding
  reports it as `Fault.out_of_bounds` instead of inventing a result.
* The loops whose counter is a `uint32_t` compared with a `size_t` bound need not
  terminate; they are embedded with a fuel argument and report `Fault.out_of_fuel`
  when the fuel does not suffice.
* The object representation of the fixed-width integers is the host's; it is the
  parameter `ByteOrder` of every fixed-width accessor.  A `float` or `double` is given by
  the bytes of its object representation; its arithmetic plays no part.
* What `stat`, `fopen` and `fread` report about a path is the record `file_status`.
* The structs are values passed in and out; `malloc` and `free` of a struct are not
  modelled, and allocation is taken to succeed, as the source takes it.
-/

namespace ByteBuffer

/-! ## Machine model -/

/-- Number of values of a `uint32_t` (the cursor `pos`, every index and loop counter). -/
abbrev UINT32_MOD : Nat := 2 ^ 32

/-- Number of values of a `size_t` (the capacity `len`). -/
abbrev SIZE_MOD : Nat := 2 ^ 64

/-- Ways in which an execution has no result. -/
inductive Fault where
  | out_of_bounds
  | out_of_fuel
  deriving DecidableEq, Repr

/-- Addressed storage: entry `p` is the live block at address `p`, or `none` once freed. -/
abbrev Memory := List (Option (List Nat))

/-- The live block at address `p`, if any. -/
def block (m : Memory) (p : Nat) : Option (List Nat) :=
  match m[p]? with
  | some (some blk) => some blk
  | _ => none

/-- Replace the contents of the block at address `p`. -/
def update (m : Memory) (p : Nat) (blk : List Nat) : Memory :=
  m.set p (some blk)

/-- The call `malloc(n)`: a fresh block of `n` bytes of indeterminate content `junk`. -/
def malloc (m : Memory) (junk : Nat → Nat) (n : Nat) : Memory × Nat :=
  (m ++ [some ((List.range n).map junk)], m.length)

/-- The call `calloc(n, sizeof(uint8_t))`: a fresh block of `n` zero bytes. -/
def calloc (m : Memory) (n : Nat) : Memory × Nat :=
  (m ++ [some (List.replicate n 0)], m.length)

/-- The call `free(p)`: the block at `p` stops being live. -/
def free (m : Memory) (p : Nat) : Except Fault Memory :=
  match block m p with
  | some _ => .ok (m.set p none)
  | none => .error .out_of_bounds

/-- The call `memcpy(dst, src, n)`: the first `n` bytes of `dst` become those of `src`. -/
def memcpy (m : Memory) (dst src n : Nat) : Except Fault Memory :=
  match block m dst, block m src with
  | some d, some s =>
    if n ≤ d.length ∧ n ≤ s.length then .ok (update m dst (s.take n ++ d.drop n))
    else .error .out_of_bounds
  | _, _ => .error .out_of_bounds

/-- The call `memset(p, c, n)`: the first `n` bytes of the block become `c`. -/
def memset (m : Memory) (p c n : Nat) : Except Fault Memory :=
  match block m p with
  | some d =>
    if n ≤ d.length then .ok (update m p (List.replicate n (c % 256) ++ d.drop n))
    else .error .out_of_bounds
  | none => .error .out_of_bounds

/-- The read `p[i]` of one byte. -/
def load (m : Memory) (p i : Nat) : Except Fault Nat :=
  match block m p with
  | some d => if i < d.length then .ok (d.getD i 0) else .error .out_of_bounds
  | none => .error .out_of_bounds

/-- The write `p[i] = v` of one byte (`v` is a `uint8_t`). -/
def store (m : Memory) (p i v : Nat) : Except Fault Memory :=
  match block m p with
  | some d => if i < d.length then .ok (update m p (d.set i (v % 256))) else .error .out_of_bounds
  | none => .error .out_of_bounds

/-- The read of the `n` bytes `p[i] .. p[i+n-1]` (a dereference of `(T*)(p + i)`). -/
def load_bytes (m : Memory) (p i n : Nat) : Except Fault (List Nat) :=
  match block m p with
  | some d => if i + n ≤ d.length then .ok ((d.drop i).take n) else .error .out_of_bounds
  | none => .error .out_of_bounds

/-- The write of the bytes `bs` to `p[i] ..` (an assignment through `(T*)(p + i)`). -/
def store_bytes (m : Memory) (p i : Nat) (bs : List Nat) : Except Fault Memory :=
  match block m p with
  | some d =>
    if i + bs.length ≤ d.length then
      .ok (update m p (d.take i ++ bs ++ d.drop (i + bs.length)))
    else .error .out_of_bounds
  | none => .error .out_of_bounds

/-- Host byte order of the fixed-width integers. -/
inductive ByteOrder where
  | little
  | big
  deriving DecidableEq, Repr

/-- The `w` bytes of `v`, least significant first (`v` is taken modulo `256 ^ w`). -/
def to_bytes_le : Nat → Nat → List Nat
  | 0, _ => []
  | w + 1, v => v % 256 :: to_bytes_le w (v / 256)

/-- The value whose bytes, least significant first, are `bs`. -/
def of_bytes_le : List Nat → Nat
  | [] => 0
  | b :: bs => b + 256 * of_bytes_le bs

/-- Object representation of a `w`-byte unsigned integer. -/
def to_bytes (o : ByteOrder) (w v : Nat) : List Nat :=
  match o with
  | .little => to_bytes_le w v
  | .big => (to_bytes_le w v).reverse

/-- The unsigned integer an object representation stands for. -/
def of_bytes (o : ByteOrder) (bs : List Nat) : Nat :=
  match o with
  | .little => of_bytes_le bs
  | .big => of_bytes_le bs.reverse

/-! ## The buffer -/

/-- The struct `byte_buffer`: `pos` is a `uint32_t`, `len` a `size_t`, `buf` an address. -/
structure byte_buffer where
  pos : Nat
  wrapped : Bool
  len : Nat
  buf : Nat
  deriving DecidableEq, Repr

/-- Wrap around an existing block: the buffer shares the caller's storage. -/
def bb_new_wrap (buf len : Nat) : byte_buffer :=
  { pos := 0, wrapped := true, len := len, buf := buf }

/-- Copy `len` bytes from the block at `buf` into a newly created buffer. -/
def bb_new_copy (m : Memory) (junk : Nat → Nat) (buf len : Nat) :
    Except Fault (Memory × byte_buffer) :=
  let (m1, p) := malloc m junk len
  match memcpy m1 p buf len with
  | .ok m2 => .ok (m2, { pos := 0, wrapped := false, len := len, buf := p })
  | .error e => .error e

/-- A new zeroed buffer of `len` bytes. -/
def bb_new (m : Memory) (len : Nat) : Memory × byte_buffer :=
  let (m1, p) := calloc m len
  (m1, { pos := 0, wrapped := false, len := len, buf := p })

/-- Resize: refused on a wrapped buffer, else fresh zeroed storage holding the old prefix. -/
def bb_resize (m : Memory) (bb : byte_buffer) (new_len : Nat) :
    Except Fault (Memory × byte_buffer × Bool) :=
  if bb.wrapped then .ok (m, bb, false)
  else
    let copy_len := if new_len ≥ bb.len then bb.len else new_len
    let old_buf := bb.buf
    let (m1, p) := calloc m new_len
    match memcpy m1 p old_buf copy_len with
    | .error e => .error e
    | .ok m2 =>
      match free m2 old_buf with
      | .error e => .error e
      | .ok m3 => .ok (m3, { bb with pos := 0, len := new_len, buf := p }, true)

/-- Number of bytes from the cursor to the end, in `size_t` arithmetic. -/
def bb_bytes_left (bb : byte_buffer) : Nat :=
  (bb.len + SIZE_MOD - bb.pos) % SIZE_MOD

/-- Zero-fill the storage; the struct is not touched. -/
def bb_clear (m : Memory) (bb : byte_buffer) : Except Fault (Memory × byte_buffer) :=
  match memset m bb.buf 0 bb.len with
  | .ok m1 => .ok (m1, bb)
  | .error e => .error e

/-- A new buffer with a copy of the contents and the same cursor. -/
def bb_clone (m : Memory) (junk : Nat → Nat) (bb : byte_buffer) :
    Except Fault (Memory × byte_buffer) :=
  match bb_new_copy m junk bb.buf bb.len with
  | .ok (m1, ret) => .ok (m1, { ret with pos := bb.pos })
  | .error e => .error e

/-- The loop of `bb_equals`, from counter value `i`; the counter is a `uint32_t`. -/
def bb_equals_loop (m : Memory) (bb1 bb2 : byte_buffer) : Nat → Nat → Except Fault Bool
  | 0, _ => .error .out_of_fuel
  | fuel + 1, i =>
    if i < bb1.len then
      match load m bb1.buf i, load m bb2.buf i with
      | .ok x, .ok y =>
        if x ≠ y then .ok false
        else bb_equals_loop m bb1 bb2 fuel ((i + 1) % UINT32_MOD)
      | .error e, _ => .error e
      | _, .error e => .error e
    else .ok true

/-- Compare the contents of two buffers. -/
def bb_equals (fuel : Nat) (m : Memory) (bb1 bb2 : byte_buffer) : Except Fault Bool :=
  if bb1.len ≠ bb2.len then .ok false
  else bb_equals_loop m bb1 bb2 fuel 0

/-- Relative put of one byte: dropped when the cursor has reached the capacity. -/
def bb_put (m : Memory) (bb : byte_buffer) (value : Nat) : Except Fault (Memory × byte_buffer) :=
  if bb.pos ≥ bb.len then .ok (m, bb)
  else
    match store m bb.buf bb.pos value with
    | .ok m1 => .ok (m1, { bb with pos := (bb.pos + 1) % UINT32_MOD })
    | .error e => .error e

/-- Relative put of a `w`-byte unsigned integer: `*(T*)(bb->buf+bb->pos) = value` and
`bb->pos += sizeof(T)`, the common body of `bb_put_short`, `bb_put_int`, `bb_put_long`. -/
def put_uint (w : Nat) (o : ByteOrder) (m : Memory) (bb : byte_buffer) (value : Nat) :
    Except Fault (Memory × byte_buffer) :=
  match store_bytes m bb.buf bb.pos (to_bytes o w value) with
  | .ok m1 => .ok (m1, { bb with pos := (bb.pos + w) % UINT32_MOD })
  | .error e => .error e

/-- Absolute get of a `w`-byte unsigned integer: `*(T*)(bb->buf+index)`. -/
def get_uint_at (w : Nat) (o : ByteOrder) (m : Memory) (bb : byte_buffer) (index : Nat) :
    Except Fault Nat :=
  match load_bytes m bb.buf index w with
  | .ok bs => .ok (of_bytes o bs)
  | .error e => .error e

/-- Relative get of a `w`-byte unsigned integer: the read, then `bb->pos += sizeof(T)`. -/
def get_uint (w : Nat) (o : ByteOrder) (m : Memory) (bb : byte_buffer) :
    Except Fault (Nat × byte_buffer) :=
  match load_bytes m bb.buf bb.pos w with
  | .ok bs => .ok (of_bytes o bs, { bb with pos := (bb.pos + w) % UINT32_MOD })
  | .error e => .error e

/-- Relative put of a `uint16_t`. -/
def bb_put_short := put_uint 2

/-- Relative put of a `uint32_t`. -/
def bb_put_int := put_uint 4

/-- Relative put of a `uint64_t`. -/
def bb_put_long := put_uint 8

/-- Absolute get of a `uint16_t`. -/
def bb_get_short_at := get_uint_at 2

/-- Absolute get of a `uint32_t`. -/
def bb_get_int_at := get_uint_at 4

/-- Absolute get of a `uint64_t`. -/
def bb_get_long_at := get_uint_at 8

/-- Relative get of a `uint16_t`. -/
def bb_get_short := get_uint 2

/-- Relative get of a `uint32_t`. -/
def bb_get_int := get_uint 4

/-- Relative get of a `uint64_t`. -/
def bb_get_long := get_uint 8

/-- Apply `bb_put` to each byte of `vs` in turn (a caller that puts byte after byte). -/
def put_each (m : Memory) (bb : byte_buffer) : List Nat → Except Fault (Memory × byte_buffer)
  | [] => .ok (m, bb)
  | v :: vs =>
    match bb_put m bb v with
    | .ok (m1, bb1) => put_each m1 bb1 vs
    | .error e => .error e

/-! ## Further operations of the interface -/

/-- Default number of bytes of storage when no size is provided (`BB_DEFAULT_SIZE`). -/
def BB_DEFAULT_SIZE : Nat := 4096

/-- A new zeroed buffer of the default size. -/
def bb_new_default (m : Memory) : Memory × byte_buffer :=
  let (m1, p) := calloc m BB_DEFAULT_SIZE
  (m1, { pos := 0, wrapped := false, len := BB_DEFAULT_SIZE, buf := p })

/-- What the C library reports about a path: `st_size` is the size `stat` gives (`none`
when `stat` fails), `fopen_ok` whether `fopen` succeeds, `data` the bytes `fread` can
deliver. -/
structure file_status where
  st_size : Option Nat
  fopen_ok : Bool
  data : List Nat
  deriving DecidableEq, Repr

/-- The call `fread(p, sizeof(uint8_t), n, fp)`: up to `n` bytes of the file are written
at the start of the block, and their number is returned. -/
def fread (m : Memory) (p : Nat) (f : file_status) (n : Nat) : Except Fault (Memory × Nat) :=
  match store_bytes m p 0 (f.data.take (min n f.data.length)) with
  | .ok m1 => .ok (m1, min n f.data.length)
  | .error e => .error e

/-- Load a whole file: `none` when `stat` or `fopen` fails or the read is short, else
`bb_new_wrap` around the block that was read into. -/
def bb_new_from_file (m : Memory) (junk : Nat → Nat) (f : file_status) :
    Except Fault (Memory × Option byte_buffer) :=
  match f.st_size with
  | none => .ok (m, none)
  | some size =>
    if f.fopen_ok = false then .ok (m, none)
    else
      let (m1, file_buf) := malloc m junk size
      match fread m1 file_buf f size with
      | .error e => .error e
      | .ok (m2, bytes_read) =>
        if bytes_read ≠ size then
          match free m2 file_buf with
          | .ok m3 => .ok (m3, none)
          | .error e => .error e
        else .ok (m2, some (bb_new_wrap file_buf bytes_read))

/-- Release a buffer: the storage is freed only when the buffer is not wrapped (the
struct itself is a value here, its release leaves no trace in memory). -/
def bb_free (m : Memory) (bb : byte_buffer) : Except Fault Memory :=
  if bb.wrapped = false then free m bb.buf else .ok m

/-- The statement `bb->pos += len` with `len` a `size_t`; the sum is stored in a `uint32_t`. -/
def bb_skip (bb : byte_buffer) (len : Nat) : byte_buffer :=
  { bb with pos := (bb.pos + len) % UINT32_MOD }

/-- The loop of `bb_replace`, from counter value `i`; the counter is a `uint32_t`. -/
def bb_replace_loop (bb : byte_buffer) (key rep : Nat) (firstOccuranceOnly : Bool) :
    Nat → Memory → Nat → Except Fault (Memory × byte_buffer)
  | 0, _, _ => .error .out_of_fuel
  | fuel + 1, m, i =>
    if i < bb.len then
      match load m bb.buf i with
      | .error e => .error e
      | .ok x =>
        if x = key then
          match store m bb.buf i rep with
          | .error e => .error e
          | .ok m1 =>
            if firstOccuranceOnly then .ok (m1, bb)
            else bb_replace_loop bb key rep firstOccuranceOnly fuel m1 ((i + 1) % UINT32_MOD)
        else bb_replace_loop bb key rep firstOccuranceOnly fuel m ((i + 1) % UINT32_MOD)
    else .ok (m, bb)

/-- Overwrite with `rep` the bytes equal to `key` from index `start` on (only the first
one when `firstOccuranceOnly`). -/
def bb_replace (fuel : Nat) (m : Memory) (bb : byte_buffer) (key rep start : Nat)
    (firstOccuranceOnly : Bool) : Except Fault (Memory × byte_buffer) :=
  bb_replace_loop bb key rep firstOccuranceOnly fuel m start

/-- Relative peek: the byte at the cursor, the cursor staying where it is. -/
def bb_peek (m : Memory) (bb : byte_buffer) : Except Fault Nat :=
  load m bb.buf bb.pos

/-- Relative get of one byte: `bb->buf[bb->pos++]`. -/
def bb_get (m : Memory) (bb : byte_buffer) : Except Fault (Nat × byte_buffer) :=
  match load m bb.buf bb.pos with
  | .ok x => .ok (x, { bb with pos := (bb.pos + 1) % UINT32_MOD })
  | .error e => .error e

/-- Absolute get of one byte: `bb->buf[index]`; the struct is not assigned. -/
def bb_get_at (m : Memory) (bb : byte_buffer) (index : Nat) : Except Fault (Nat × byte_buffer) :=
  match load m bb.buf index with
  | .ok x => .ok (x, bb)
  | .error e => .error e

/-- The loop of `bb_get_bytes_in` with `n` iterations left, at counter value `i` (the
counter and the bound are both `size_t`). -/
def bb_get_bytes_in_loop (dest : Nat) :
    Nat → Memory → byte_buffer → Nat → Except Fault (Memory × byte_buffer)
  | 0, m, bb, _ => .ok (m, bb)
  | n + 1, m, bb, i =>
    match bb_get m bb with
    | .error e => .error e
    | .ok (x, bb1) =>
      match store m dest i x with
      | .error e => .error e
      | .ok m1 => bb_get_bytes_in_loop dest n m1 bb1 (i + 1)

/-- Relative get of `len` bytes into the caller's block `dest`. -/
def bb_get_bytes_in (m : Memory) (bb : byte_buffer) (dest len : Nat) :
    Except Fault (Memory × byte_buffer) :=
  bb_get_bytes_in_loop dest len m bb 0

/-- The loop of `bb_get_bytes_at_in` with `n` iterations left, at counter value `i`; the
sum `index+i` is passed as a `uint32_t`. -/
def bb_get_bytes_at_in_loop (index dest : Nat) :
    Nat → Memory → byte_buffer → Nat → Except Fault (Memory × byte_buffer)
  | 0, m, bb, _ => .ok (m, bb)
  | n + 1, m, bb, i =>
    match bb_get_at m bb ((index + i) % UINT32_MOD) with
    | .error e => .error e
    | .ok (x, bb1) =>
      match store m dest i x with
      | .error e => .error e
      | .ok m1 => bb_get_bytes_at_in_loop index dest n m1 bb1 (i + 1)

/-- Absolute get of `len` bytes into the caller's block `dest`. -/
def bb_get_bytes_at_in (m : Memory) (bb : byte_buffer) (index dest len : Nat) :
    Except Fault (Memory × byte_buffer) :=
  bb_get_bytes_at_in_loop index dest len m bb 0

/-- The call `memcpy(dst, src + off, n)`. -/
def memcpy_from (m : Memory) (dst src off n : Nat) : Except Fault Memory :=
  match block m dst, block m src with
  | some d, some s =>
    if n ≤ d.length ∧ off + n ≤ s.length then
      .ok (update m dst ((s.drop off).take n ++ d.drop n))
    else .error .out_of_bounds
  | _, _ => .error .out_of_bounds

/-- A new block of `len` bytes copied from the cursor on; the cursor advances by `len`.
The result holds the address of the new block. -/
def bb_get_bytes (m : Memory) (junk : Nat → Nat) (bb : byte_buffer) (len : Nat) :
    Except Fault (Memory × Nat × byte_buffer) :=
  let (m1, ret) := malloc m junk len
  match memcpy_from m1 ret bb.buf bb.pos len with
  | .ok m2 => .ok (m2, ret, { bb with pos := (bb.pos + len) % UINT32_MOD })
  | .error e => .error e

/-- A new block of `len` bytes whose content is whatever `malloc` left there. -/
def bb_get_bytes_at (m : Memory) (junk : Nat → Nat) (bb : byte_buffer) (len : Nat)
    (_index : Nat) : Memory × Nat × byte_buffer :=
  let (m1, ret) := malloc m junk len
  (m1, ret, bb)

/-- Absolute put of one byte: dropped when the index is at or past the capacity. -/
def bb_put_at (m : Memory) (bb : byte_buffer) (value index : Nat) :
    Except Fault (Memory × byte_buffer) :=
  if index ≥ bb.len then .ok (m, bb)
  else
    match store m bb.buf index value with
    | .ok m1 => .ok (m1, bb)
    | .error e => .error e

/-- The loop of `bb_put_bb`, from counter value `i`; the counter is a `uint32_t`. -/
def bb_put_bb_loop (src : byte_buffer) :
    Nat → Memory → byte_buffer → Nat → Except Fault (Memory × byte_buffer)
  | 0, _, _, _ => .error .out_of_fuel
  | fuel + 1, m, dest, i =>
    if i < src.len then
      match load m src.buf i with
      | .error e => .error e
      | .ok x =>
        match bb_put m dest x with
        | .error e => .error e
        | .ok (m1, dest1) => bb_put_bb_loop src fuel m1 dest1 ((i + 1) % UINT32_MOD)
    else .ok (m, dest)

/-- Relative write of the bytes of `src` from its cursor to its end. -/
def bb_put_bb (fuel : Nat) (m : Memory) (dest src : byte_buffer) :
    Except Fault (Memory × byte_buffer) :=
  bb_put_bb_loop src fuel m dest src.pos

/-- The loop of `bb_put_bytes`, from counter value `i`: the `uint32_t` counter is
incremented in the body and again by the `for` statement. -/
def bb_put_bytes_loop (arr len : Nat) :
    Nat → Memory → byte_buffer → Nat → Except Fault (Memory × byte_buffer)
  | 0, _, _, _ => .error .out_of_fuel
  | fuel + 1, m, bb, i =>
    if i < len then
      match load m arr i with
      | .error e => .error e
      | .ok x =>
        match bb_put m bb x with
        | .error e => .error e
        | .ok (m1, bb1) =>
          bb_put_bytes_loop arr len fuel m1 bb1 (((i + 1) % UINT32_MOD + 1) % UINT32_MOD)
    else .ok (m, bb)

/-- Relative put of the `len` bytes of the caller's block `arr`. -/
def bb_put_bytes (fuel : Nat) (m : Memory) (bb : byte_buffer) (arr len : Nat) :
    Except Fault (Memory × byte_buffer) :=
  bb_put_bytes_loop arr len fuel m bb 0

/-- The loop of `bb_put_bytes_at`, from counter value `i`: the counter starts at `index`,
is bounded by the capacity, and is incremented twice per iteration. -/
def bb_put_bytes_at_loop (arr index : Nat) :
    Nat → Memory → byte_buffer → Nat → Except Fault (Memory × byte_buffer)
  | 0, _, _, _ => .error .out_of_fuel
  | fuel + 1, m, bb, i =>
    if i < bb.len then
      match load m arr i with
      | .error e => .error e
      | .ok x =>
        match bb_put_at m bb x ((index + i) % UINT32_MOD) with
        | .error e => .error e
        | .ok (m1, bb1) =>
          bb_put_bytes_at_loop arr index fuel m1 bb1 (((i + 1) % UINT32_MOD + 1) % UINT32_MOD)
    else .ok (m, bb)

/-- Absolute put of bytes of the caller's block `arr`; the argument `len` is not used. -/
def bb_put_bytes_at (fuel : Nat) (m : Memory) (bb : byte_buffer) (arr _len index : Nat) :
    Except Fault (Memory × byte_buffer) :=
  bb_put_bytes_at_loop arr index fuel m bb index

/-- Absolute put of a `w`-byte unsigned integer: `*(T*)(bb->buf+index) = value`, the common
body of `bb_put_short_at`, `bb_put_int_at`, `bb_put_long_at`. -/
def put_uint_at (w : Nat) (o : ByteOrder) (m : Memory) (bb : byte_buffer) (value index : Nat) :
    Except Fault (Memory × byte_buffer) :=
  match store_bytes m bb.buf index (to_bytes o w value) with
  | .ok m1 => .ok (m1, bb)
  | .error e => .error e

/-- Absolute put of a `uint16_t`. -/
def bb_put_short_at := put_uint_at 2

/-- Absolute put of a `uint32_t`. -/
def bb_put_int_at := put_uint_at 4

/-- Absolute put of a `uint64_t`. -/
def bb_put_long_at := put_uint_at 8

/-- Relative get of a `float`, given by the 4 bytes of its object representation. -/
def bb_get_float := get_uint 4

/-- Absolute get of a `float`, given by the 4 bytes of its object representation. -/
def bb_get_float_at := get_uint_at 4

/-- Relative get of a `double`, given by the 8 bytes of its object representation. -/
def bb_get_double := get_uint 8

/-- Absolute get of a `double`, given by the 8 bytes of its object representation. -/
def bb_get_double_at := get_uint_at 8

/-- Relative put of a `float`, given by the 4 bytes of its object representation. -/
def bb_put_float := put_uint 4

/-- Absolute put of a `float`, given by the 4 bytes of its object representation. -/
def bb_put_float_at := put_uint_at 4

/-- Relative put of a `double`, given by the 8 bytes of its object representation. -/
def bb_put_double := put_uint 8

/-- Absolute put of a `double`, given by the 8 bytes of its object representation. -/
def bb_put_double_at := put_uint_at 8

/-! ## Memory lemmas -/

theorem block_eq_some_iff {m : Memory} {p : Nat} {d : List Nat} :
    block m p = some d ↔ m[p]? = some (some d) := by
  unfold block
  constructor
  · intro h
    split at h
    · simp_all
    · simp at h
  · intro h
    simp [h]

theorem block_lt {m : Memory} {p : Nat} {d : List Nat} (h : block m p = some d) :
    p < m.length := by
  rw [block_eq_some_iff] at h
  by_contra hc
  rw [List.getElem?_eq_none (by omega)] at h
  simp at h

theorem block_update_same {m : Memory} {p : Nat} (blk : List Nat) (h : p < m.length) :
    block (update m p blk) p = some blk := by
  rw [block_eq_some_iff]
  simp [update, List.getElem?_set, h]

theorem block_update_ne {m : Memory} {p q : Nat} (blk : List Nat) (h : p ≠ q) :
    block (update m p blk) q = block m q := by
  simp [block, update, List.getElem?_set, h]

theorem update_update (m : Memory) (p : Nat) (a b : List Nat) :
    update (update m p a) p b = update m p b := by
  simp [update, List.set_set]

theorem update_block {m : Memory} {p : Nat} {d : List Nat} (h : block m p = some d) :
    update m p d = m := by
  rw [block_eq_some_iff] at h
  apply List.ext_getElem?
  intro n
  simp only [update, List.getElem?_set]
  split
  · next hpn =>
    subst hpn
    rw [h]
    have := List.getElem?_eq_some.mp h
    simp [this.1]
  · rfl

theorem length_update (m : Memory) (p : Nat) (blk : List Nat) :
    (update m p blk).length = m.length := by
  simp [update]

theorem block_append_new (m : Memory) (blk : List Nat) :
    block (m ++ [some blk]) m.length = some blk := by
  rw [block_eq_some_iff]
  simp

theorem block_append_old {m : Memory} {q : Nat} (x : Option (List Nat)) (h : q < m.length) :
    block (m ++ [x]) q = block m q := by
  simp [block, List.getElem?_append_left h]

/-! ## Relative put of single bytes -/

theorem bb_put_full (m : Memory) (bb : byte_buffer) (v : Nat) (h : bb.len ≤ bb.pos) :
    bb_put m bb v = .ok (m, bb) := by
  simp [bb_put, h]

theorem bb_put_room {m : Memory} {bb : byte_buffer} {blk : List Nat} (v : Nat)
    (hblk : block m bb.buf = some blk) (hpos : bb.pos < bb.len) (hlen : bb.len ≤ blk.length) :
    bb_put m bb v = .ok (update m bb.buf (blk.set bb.pos (v % 256)),
      { bb with pos := (bb.pos + 1) % UINT32_MOD }) := by
  have h1 : ¬ bb.pos ≥ bb.len := by omega
  have h2 : bb.pos < blk.length := by omega
  simp [bb_put, h1, store, hblk, h2]

theorem put_each_room (vs : List Nat) :
    ∀ (m : Memory) (bb : byte_buffer) (blk : List Nat),
      block m bb.buf = some blk → bb.len ≤ blk.length → bb.len < UINT32_MOD →
      bb.pos + vs.length ≤ bb.len →
      put_each m bb vs = .ok
        (update m bb.buf
          (blk.take bb.pos ++ vs.map (· % 256) ++ blk.drop (bb.pos + vs.length)),
         { bb with pos := bb.pos + vs.length }) := by
  induction vs with
  | nil =>
    intro m bb blk hblk _ _ _
    simp [put_each, update_block hblk]
  | cons v vs ih =>
    intro m bb blk hblk hlen h32 hroom
    simp only [List.length_cons] at hroom
    have hpos : bb.pos < bb.len := by omega
    have hmod : (bb.pos + 1) % UINT32_MOD = bb.pos + 1 := by
      apply Nat.mod_eq_of_lt
      omega
    rw [put_each, bb_put_room v hblk hpos hlen]
    simp only [hmod]
    have hb : block (update m bb.buf (blk.set bb.pos (v % 256))) bb.buf
        = some (blk.set bb.pos (v % 256)) :=
      block_update_same _ (block_lt hblk)
    rw [ih _ { bb with pos := bb.pos + 1 } _ hb (by simpa using hlen) h32
      (by simp only; omega)]
    simp only [update_update, List.length_cons, List.map_cons]
    have hset : blk.set bb.pos (v % 256)
        = blk.take bb.pos ++ (v % 256) :: blk.drop (bb.pos + 1) := by
      rw [List.set_eq_take_append_cons_drop, if_pos (by omega)]
    have htake : (blk.set bb.pos (v % 256)).take (bb.pos + 1) = blk.take bb.pos ++ [v % 256] := by
      rw [hset]
      rw [List.take_append_eq_append_take]
      simp [List.length_take, Nat.min_eq_left (by omega : bb.pos ≤ blk.length)]
    have hdrop : (blk.set bb.pos (v % 256)).drop (bb.pos + 1 + vs.length)
        = blk.drop (bb.pos + (vs.length + 1)) := by
      rw [List.drop_set, if_pos (by omega)]
      congr 1
      omega
    rw [htake, hdrop]
    have hadd : bb.pos + 1 + vs.length = bb.pos + (vs.length + 1) := by omega
    simp [hadd]

theorem put_each_wrap (vs : List Nat) :
    ∀ (m : Memory) (bb : byte_buffer) (blk : List Nat),
      block m bb.buf = some blk → bb.len ≤ blk.length → UINT32_MOD ≤ bb.len →
      bb.pos < UINT32_MOD →
      ∃ m1 blk1, put_each m bb vs
          = .ok (m1, { bb with pos := (bb.pos + vs.length) % UINT32_MOD }) ∧
        block m1 bb.buf = some blk1 ∧ blk1.length = blk.length := by
  induction vs with
  | nil =>
    intro m bb blk hblk _ _ hpos
    refine ⟨m, blk, ?_, hblk, rfl⟩
    simp [put_each, Nat.mod_eq_of_lt hpos]
  | cons v vs ih =>
    intro m bb blk hblk hlen h32 hpos
    have hlt : bb.pos < bb.len := by omega
    have hb : block (update m bb.buf (blk.set bb.pos (v % 256))) bb.buf
        = some (blk.set bb.pos (v % 256)) :=
      block_update_same _ (block_lt hblk)
    obtain ⟨m1, blk1, h1, h2, h3⟩ := ih _ { bb with pos := (bb.pos + 1) % UINT32_MOD } _ hb
      (by simpa using hlen) h32 (Nat.mod_lt _ (by decide))
    refine ⟨m1, blk1, ?_, h2, by simpa using h3⟩
    rw [put_each, bb_put_room v hblk hlt hlen]
    simp only
    rw [h1]
    simp only [List.length_cons, Nat.mod_add_mod]
    have hadd : bb.pos + 1 + vs.length = bb.pos + (vs.length + 1) := by omega
    rw [hadd]

/-- C1 (amended): a relative put of one byte on a buffer whose cursor is at or past its
capacity changes neither memory nor the buffer; and for a capacity below `2 ^ 32`, after
as many puts as the capacity from cursor 0 the storage holds the bytes put, the cursor
equals the capacity, and one more put changes nothing. -/
theorem bb_put_drop_when_full (m : Memory) (bb : byte_buffer) (v : Nat) :
    (bb.len ≤ bb.pos → bb_put m bb v = .ok (m, bb)) ∧
    (∀ (blk vs : List Nat), block m bb.buf = some blk → bb.len ≤ blk.length →
      bb.pos = 0 → bb.len < UINT32_MOD → vs.length = bb.len →
      ∃ m1 bb1, put_each m bb vs = .ok (m1, bb1) ∧
        bb1 = { bb with pos := bb.len } ∧
        block m1 bb.buf = some (vs.map (· % 256) ++ blk.drop bb.len) ∧
        bb_put m1 bb1 v = .ok (m1, bb1)) := by
  refine ⟨bb_put_full m bb v, ?_⟩
  intro blk vs hblk hlen hpos h32 hvs
  have h := put_each_room vs m bb blk hblk hlen h32 (by omega)
  refine ⟨_, _, h, ?_, ?_, ?_⟩
  · simp [hpos, hvs]
  · rw [block_update_same _ (block_lt hblk)]
    simp [hpos, hvs]
  · apply bb_put_full
    simp [hpos, hvs]

/-- Witness of C1: a full 3-byte buffer, and a 3-byte buffer filled by three puts. -/
theorem bb_put_drop_when_full_witness :
    bb_put [some [1, 2, 3]] { pos := 3, wrapped := false, len := 3, buf := 0 } 7
      = .ok ([some [1, 2, 3]], { pos := 3, wrapped := false, len := 3, buf := 0 }) ∧
    ∃ m1 bb1, put_each [some [0, 0, 0]] { pos := 0, wrapped := false, len := 3, buf := 0 }
        [1, 2, 3] = .ok (m1, bb1) ∧
      bb1 = { pos := 3, wrapped := false, len := 3, buf := 0 } ∧
      block m1 0 = some ([1, 2, 3].map (· % 256) ++ [0, 0, 0].drop 3) ∧
      bb_put m1 bb1 7 = .ok (m1, bb1) :=
  ⟨(bb_put_drop_when_full [some [1, 2, 3]] { pos := 3, wrapped := false, len := 3, buf := 0 }
      7).1 (by decide),
   (bb_put_drop_when_full [some [0, 0, 0]] { pos := 0, wrapped := false, len := 3, buf := 0 }
      7).2 [0, 0, 0] [1, 2, 3] (by decide) (by decide) (by decide) (by decide) (by decide)⟩

/-- Counterexample to C1 as stated: on a zeroed buffer of capacity `2 ^ 32`, `2 ^ 32` puts
from cursor 0 succeed and leave the 32-bit cursor at 0, so one more put is not dropped. -/
theorem bb_put_after_fill_counterexample :
    ∃ m1 bb1, put_each (bb_new [] UINT32_MOD).1 (bb_new [] UINT32_MOD).2
        (List.replicate UINT32_MOD 0) = .ok (m1, bb1) ∧
      bb1.pos = 0 ∧ bb_put m1 bb1 1 ≠ .ok (m1, bb1) := by
  have hblk : block (bb_new [] UINT32_MOD).1 (bb_new [] UINT32_MOD).2.buf
      = some (List.replicate UINT32_MOD 0) := block_append_new [] _
  have hlen : (bb_new [] UINT32_MOD).2.len ≤ (List.replicate UINT32_MOD 0).length := by
    rw [List.length_replicate]
    exact Nat.le_refl _
  obtain ⟨m1, blk1, h1, h2, h3⟩ := put_each_wrap (List.replicate UINT32_MOD 0)
    (bb_new [] UINT32_MOD).1 (bb_new [] UINT32_MOD).2 _ hblk hlen (Nat.le_refl _)
    (by decide)
  have hpos : ((bb_new [] UINT32_MOD).2.pos + (List.replicate UINT32_MOD 0).length)
      % UINT32_MOD = 0 := by
    rw [List.length_replicate]
    exact Nat.mod_self _
  rw [hpos] at h1
  refine ⟨m1, _, h1, rfl, ?_⟩
  rw [List.length_replicate] at h3
  have hput := @bb_put_room m1 { (bb_new [] UINT32_MOD).2 with pos := 0 } blk1 1 h2
    (by decide) (by rw [h3]; exact Nat.le_refl _)
  rw [hput]
  intro hcon
  have hp := congrArg (fun r => match r with
    | Except.ok (_, b) => b.pos
    | Except.error _ => 0) hcon
  simp at hp

/-! ## Fixed-width integers -/

theorem length_to_bytes_le (w : Nat) : ∀ v, (to_bytes_le w v).length = w := by
  induction w with
  | zero => intro v; rfl
  | succ w ih => intro v; simp [to_bytes_le, ih]

theorem length_to_bytes (o : ByteOrder) (w v : Nat) : (to_bytes o w v).length = w := by
  cases o <;> simp [to_bytes, length_to_bytes_le]

theorem of_to_bytes_le (w : Nat) : ∀ v, of_bytes_le (to_bytes_le w v) = v % 256 ^ w := by
  induction w with
  | zero => intro v; simp [to_bytes_le, of_bytes_le, Nat.mod_one]
  | succ w ih =>
    intro v
    simp only [to_bytes_le, of_bytes_le, ih]
    rw [Nat.pow_succ, Nat.mul_comm (256 ^ w) 256, Nat.mod_mul]

theorem of_to_bytes (o : ByteOrder) (w v : Nat) (hv : v < 256 ^ w) :
    of_bytes o (to_bytes o w v) = v := by
  cases o <;> simp [of_bytes, to_bytes, of_to_bytes_le, Nat.mod_eq_of_lt hv]

theorem store_bytes_ok {m : Memory} {p : Nat} {d : List Nat} (i : Nat) (bs : List Nat)
    (hblk : block m p = some d) (h : i + bs.length ≤ d.length) :
    store_bytes m p i bs = .ok (update m p (d.take i ++ bs ++ d.drop (i + bs.length))) := by
  simp [store_bytes, hblk, h]

theorem load_bytes_ok {m : Memory} {p : Nat} {d : List Nat} (i n : Nat)
    (hblk : block m p = some d) (h : i + n ≤ d.length) :
    load_bytes m p i n = .ok ((d.drop i).take n) := by
  simp [load_bytes, hblk, h]

theorem load_store_bytes {m : Memory} {p : Nat} {d : List Nat} (i : Nat) (bs : List Nat)
    (hblk : block m p = some d) (h : i + bs.length ≤ d.length) :
    load_bytes (update m p (d.take i ++ bs ++ d.drop (i + bs.length))) p i bs.length
      = .ok bs := by
  have hi : (d.take i).length = i := by
    rw [List.length_take]
    omega
  rw [load_bytes_ok i bs.length (block_update_same _ (block_lt hblk))
    (by simp only [List.length_append, List.length_drop, hi]; omega)]
  rw [List.append_assoc, List.drop_left' hi, List.take_left' rfl]

theorem put_get_uint (w : Nat) (o : ByteOrder) {m : Memory} {bb : byte_buffer}
    {blk : List Nat} (v : Nat) (hblk : block m bb.buf = some blk)
    (hroom : bb.pos + w ≤ blk.length) (hv : v < 256 ^ w) :
    ∃ m1, put_uint w o m bb v = .ok (m1, { bb with pos := (bb.pos + w) % UINT32_MOD }) ∧
      (∀ c, get_uint_at w o m1 { bb with pos := c } bb.pos = .ok v) ∧
      get_uint w o m1 bb = .ok (v, { bb with pos := (bb.pos + w) % UINT32_MOD }) := by
  have hl := length_to_bytes o w v
  have hs := store_bytes_ok bb.pos (to_bytes o w v) hblk (by omega)
  have hld := load_store_bytes bb.pos (to_bytes o w v) hblk (by omega)
  rw [hl] at hld hs
  refine ⟨update m bb.buf (blk.take bb.pos ++ to_bytes o w v ++ blk.drop (bb.pos + w)),
    ?_, ?_, ?_⟩
  · simp only [put_uint, hs]
  · intro c
    simp only [get_uint_at, hld, of_to_bytes o w v hv]
  · simp only [get_uint, hld, of_to_bytes o w v hv]

/-- C2: for either host byte order, on a buffer with cursor 0 whose capacity (within its
live storage) is at least the width, the relative put of a 16-, 32- or 64-bit value
succeeds and moves the cursor to the width, after which the absolute get at index 0, and
the relative get once the cursor is back at 0, both return exactly that value. -/
theorem put_get_roundtrip (o : ByteOrder) (m : Memory) (bb : byte_buffer) (blk : List Nat)
    (hblk : block m bb.buf = some blk) (hlen : bb.len ≤ blk.length) (hpos : bb.pos = 0) :
    (∀ v, 2 ≤ bb.len → v < 2 ^ 16 →
      ∃ m1 bb1, bb_put_short o m bb v = .ok (m1, bb1) ∧ bb1 = { bb with pos := 2 } ∧
        bb_get_short_at o m1 bb1 0 = .ok v ∧
        bb_get_short o m1 { bb1 with pos := 0 } = .ok (v, bb1)) ∧
    (∀ v, 4 ≤ bb.len → v < 2 ^ 32 →
      ∃ m1 bb1, bb_put_int o m bb v = .ok (m1, bb1) ∧ bb1 = { bb with pos := 4 } ∧
        bb_get_int_at o m1 bb1 0 = .ok v ∧
        bb_get_int o m1 { bb1 with pos := 0 } = .ok (v, bb1)) ∧
    (∀ v, 8 ≤ bb.len → v < 2 ^ 64 →
      ∃ m1 bb1, bb_put_long o m bb v = .ok (m1, bb1) ∧ bb1 = { bb with pos := 8 } ∧
        bb_get_long_at o m1 bb1 0 = .ok v ∧
        bb_get_long o m1 { bb1 with pos := 0 } = .ok (v, bb1)) := by
  have hbb : ({ bb with pos := 0 } : byte_buffer) = bb := by
    cases bb
    simp_all
  refine ⟨?_, ?_, ?_⟩
  · intro v hcap hv
    obtain ⟨m1, h1, h2, h3⟩ := put_get_uint 2 o v hblk (by omega) (by simpa using hv)
    have hmod : (0 + 2) % UINT32_MOD = 2 := by decide
    simp only [hpos, hmod] at h1 h2 h3
    exact ⟨m1, _, h1, rfl, h2 _, by rw [hbb]; exact h3⟩
  · intro v hcap hv
    obtain ⟨m1, h1, h2, h3⟩ := put_get_uint 4 o v hblk (by omega) (by simpa using hv)
    have hmod : (0 + 4) % UINT32_MOD = 4 := by decide
    simp only [hpos, hmod] at h1 h2 h3
    exact ⟨m1, _, h1, rfl, h2 _, by rw [hbb]; exact h3⟩
  · intro v hcap hv
    obtain ⟨m1, h1, h2, h3⟩ := put_get_uint 8 o v hblk (by omega) (by simpa using hv)
    have hmod : (0 + 8) % UINT32_MOD = 8 := by decide
    simp only [hpos, hmod] at h1 h2 h3
    exact ⟨m1, _, h1, rfl, h2 _, by rw [hbb]; exact h3⟩

/-- Witness of C2: an owned 8-byte buffer at cursor 0 on a little-endian host. -/
theorem put_get_roundtrip_witness :
    (∃ m1 bb1, bb_put_short .little [some [9, 9, 9, 9, 9, 9, 9, 9]]
        { pos := 0, wrapped := false, len := 8, buf := 0 } 0xBEEF = .ok (m1, bb1) ∧
      bb1 = { pos := 2, wrapped := false, len := 8, buf := 0 } ∧
      bb_get_short_at .little m1 bb1 0 = .ok 0xBEEF ∧
      bb_get_short .little m1 { bb1 with pos := 0 } = .ok (0xBEEF, bb1)) ∧
    (∃ m1 bb1, bb_put_int .little [some [9, 9, 9, 9, 9, 9, 9, 9]]
        { pos := 0, wrapped := false, len := 8, buf := 0 } 0xDEADBEEF = .ok (m1, bb1) ∧
      bb1 = { pos := 4, wrapped := false, len := 8, buf := 0 } ∧
      bb_get_int_at .little m1 bb1 0 = .ok 0xDEADBEEF ∧
      bb_get_int .little m1 { bb1 with pos := 0 } = .ok (0xDEADBEEF, bb1)) ∧
    (∃ m1 bb1, bb_put_long .little [some [9, 9, 9, 9, 9, 9, 9, 9]]
        { pos := 0, wrapped := false, len := 8, buf := 0 } 0x0123456789ABCDEF = .ok (m1, bb1) ∧
      bb1 = { pos := 8, wrapped := false, len := 8, buf := 0 } ∧
      bb_get_long_at .little m1 bb1 0 = .ok 0x0123456789ABCDEF ∧
      bb_get_long .little m1 { bb1 with pos := 0 } = .ok (0x0123456789ABCDEF, bb1)) :=
  have h := put_get_roundtrip .little [some [9, 9, 9, 9, 9, 9, 9, 9]]
    { pos := 0, wrapped := false, len := 8, buf := 0 } [9, 9, 9, 9, 9, 9, 9, 9]
    (by decide) (by decide) (by decide)
  ⟨h.1 0xBEEF (by decide) (by decide), h.2.1 0xDEADBEEF (by decide) (by decide),
   h.2.2 0x0123456789ABCDEF (by decide) (by decide)⟩

/-- C3: the fixed-width relative puts have no capacity guard.  A 4-byte buffer wrapped
around a 16-byte array is filled by four single-byte puts, so that its cursor equals its
capacity; `bb_put_short`, `bb_put_int` and `bb_put_long` then still write past the
capacity and advance the cursor, whereas `bb_put` is dropped.  On an owned 4-byte buffer
in the same state the same three calls store outside the allocation. -/
theorem fixed_width_put_not_dropped :
    put_each [some (List.replicate 16 0)] (bb_new_wrap 0 4) [1, 2, 3, 4]
      = .ok ([some [1, 2, 3, 4, 0, 0, 0, 0, 0, 0, 0, 0, 0, 0, 0, 0]],
          { pos := 4, wrapped := true, len := 4, buf := 0 }) ∧
    bb_put [some [1, 2, 3, 4, 0, 0, 0, 0, 0, 0, 0, 0, 0, 0, 0, 0]]
        { pos := 4, wrapped := true, len := 4, buf := 0 } 0xAA
      = .ok ([some [1, 2, 3, 4, 0, 0, 0, 0, 0, 0, 0, 0, 0, 0, 0, 0]],
          { pos := 4, wrapped := true, len := 4, buf := 0 }) ∧
    bb_put_short .little [some [1, 2, 3, 4, 0, 0, 0, 0, 0, 0, 0, 0, 0, 0, 0, 0]]
        { pos := 4, wrapped := true, len := 4, buf := 0 } 0xAABB
      = .ok ([some [1, 2, 3, 4, 0xBB, 0xAA, 0, 0, 0, 0, 0, 0, 0, 0, 0, 0]],
          { pos := 6, wrapped := true, len := 4, buf := 0 }) ∧
    bb_put_int .little [some [1, 2, 3, 4, 0, 0, 0, 0, 0, 0, 0, 0, 0, 0, 0, 0]]
        { pos := 4, wrapped := true, len := 4, buf := 0 } 0xAABBCCDD
      = .ok ([some [1, 2, 3, 4, 0xDD, 0xCC, 0xBB, 0xAA, 0, 0, 0, 0, 0, 0, 0, 0]],
          { pos := 8, wrapped := true, len := 4, buf := 0 }) ∧
    bb_put_long .little [some [1, 2, 3, 4, 0, 0, 0, 0, 0, 0, 0, 0, 0, 0, 0, 0]]
        { pos := 4, wrapped := true, len := 4, buf := 0 } 0x1122334455667788
      = .ok ([some [1, 2, 3, 4, 0x88, 0x77, 0x66, 0x55, 0x44, 0x33, 0x22, 0x11, 0, 0, 0, 0]],
          { pos := 12, wrapped := true, len := 4, buf := 0 }) ∧
    put_each (bb_new [] 4).1 (bb_new [] 4).2 [1, 2, 3, 4]
      = .ok ([some [1, 2, 3, 4]], { pos := 4, wrapped := false, len := 4, buf := 0 }) ∧
    bb_put_short .little [some [1, 2, 3, 4]]
        { pos := 4, wrapped := false, len := 4, buf := 0 } 0xAABB = .error .out_of_bounds ∧
    bb_put_int .little [some [1, 2, 3, 4]]
        { pos := 4, wrapped := false, len := 4, buf := 0 } 0xAABBCCDD = .error .out_of_bounds ∧
    bb_put_long .little [some [1, 2, 3, 4]]
        { pos := 4, wrapped := false, len := 4, buf := 0 } 0x1122334455667788
      = .error .out_of_bounds := by
  refine ⟨rfl, rfl, rfl, rfl, rfl, rfl, rfl, rfl, rfl⟩

/-- The cursor after a fixed-width relative put is never the cursor before it. -/
theorem put_uint_ne_self (w : Nat) (o : ByteOrder) (m : Memory) (bb : byte_buffer) (v : Nat)
    (hw : 0 < w) (hw32 : w < UINT32_MOD) :
    put_uint w o m bb v ≠ .ok (m, bb) := by
  unfold put_uint
  split
  · intro hcon
    have hp := congrArg (fun r => match r with
      | Except.ok (_, b) => b.pos
      | Except.error _ => 0) hcon
    simp only at hp
    simp only [UINT32_MOD] at hp hw32
    omega
  · simp
/-! ## Allocation, copy and release -/

theorem memcpy_ok {m : Memory} {dst src n : Nat} {d s : List Nat}
    (hd : block m dst = some d) (hs : block m src = some s)
    (hnd : n ≤ d.length) (hns : n ≤ s.length) :
    memcpy m dst src n = .ok (update m dst (s.take n ++ d.drop n)) := by
  simp [memcpy, hd, hs, hnd, hns]

theorem memset_ok {m : Memory} {p : Nat} {d : List Nat} (c n : Nat)
    (hd : block m p = some d) (hn : n ≤ d.length) :
    memset m p c n = .ok (update m p (List.replicate n (c % 256) ++ d.drop n)) := by
  simp [memset, hd, hn]

theorem free_ok {m : Memory} {p : Nat} {d : List Nat} (hd : block m p = some d) :
    free m p = .ok (m.set p none) := by
  simp [free, hd]

theorem block_set_none_same (m : Memory) (p : Nat) : block (m.set p none) p = none := by
  unfold block
  rw [List.getElem?_set]
  split <;> simp_all

theorem block_set_none_ne {m : Memory} {p q : Nat} (h : p ≠ q) :
    block (m.set p none) q = block m q := by
  simp [block, List.getElem?_set, h]

theorem load_ok {m : Memory} {p i : Nat} {d : List Nat}
    (hd : block m p = some d) (hi : i < d.length) : load m p i = .ok (d.getD i 0) := by
  simp [load, hd, hi]

/-- C4: on a wrapped buffer `bb_resize` returns false whatever the new length, and
memory (hence the contents) and every field of the buffer (capacity, cursor, ownership
flag, storage address) are unchanged. -/
theorem bb_resize_wrapped (m : Memory) (bb : byte_buffer) (new_len : Nat)
    (h : bb.wrapped = true) : bb_resize m bb new_len = .ok (m, bb, false) := by
  simp [bb_resize, h]

/-- Witness of C4: a 3-byte buffer wrapped around the caller's block, resized to 5. -/
theorem bb_resize_wrapped_witness :
    bb_resize [some [1, 2, 3]] (bb_new_wrap 0 3) 5
      = .ok ([some [1, 2, 3]], bb_new_wrap 0 3, false) :=
  bb_resize_wrapped [some [1, 2, 3]] (bb_new_wrap 0 3) 5 rfl

/-- C5: on an owned buffer whose storage `blk` is live and holds at least `len` bytes,
`bb_resize` returns true; the buffer then has capacity `new_len`, cursor 0, is still
owned, and its storage is a fresh block holding the first `min len new_len` bytes of the
old contents followed by `new_len - min len new_len` zero bytes, the old block being
freed; when `new_len < len` these are exactly the first `new_len` old bytes. -/
theorem bb_resize_owned (m : Memory) (bb : byte_buffer) (new_len : Nat) (blk : List Nat)
    (h : bb.wrapped = false) (hblk : block m bb.buf = some blk) (hlen : bb.len ≤ blk.length) :
    ∃ m1 bb1, bb_resize m bb new_len = .ok (m1, bb1, true) ∧
      bb1.len = new_len ∧ bb1.pos = 0 ∧ bb1.wrapped = false ∧
      block m1 bb1.buf = some (blk.take (min bb.len new_len)
        ++ List.replicate (new_len - min bb.len new_len) 0) ∧
      block m1 bb.buf = none ∧
      (new_len < bb.len → block m1 bb1.buf = some (blk.take new_len)) := by
  have hlt : bb.buf < m.length := block_lt hblk
  have hne : m.length ≠ bb.buf := by omega
  have hcopy : (if new_len ≥ bb.len then bb.len else new_len) = min bb.len new_len := by
    split <;> omega
  have hd : block (m ++ [some (List.replicate new_len 0)]) m.length
      = some (List.replicate new_len 0) := block_append_new m _
  have hs : block (m ++ [some (List.replicate new_len 0)]) bb.buf = some blk := by
    rw [block_append_old _ hlt, hblk]
  have hcp := memcpy_ok (n := min bb.len new_len) hd hs (by simp) (by omega)
  have hs2 : block (update (m ++ [some (List.replicate new_len 0)]) m.length
      (blk.take (min bb.len new_len) ++ (List.replicate new_len 0).drop (min bb.len new_len)))
      bb.buf = some blk := by
    rw [block_update_ne _ hne, hs]
  have hfree := free_ok hs2
  refine ⟨(update (m ++ [some (List.replicate new_len 0)]) m.length
      (blk.take (min bb.len new_len)
        ++ (List.replicate new_len 0).drop (min bb.len new_len))).set bb.buf none,
    { bb with pos := 0, len := new_len, buf := m.length }, ?_, rfl, rfl, h, ?_, ?_, ?_⟩
  · simp only [bb_resize, h, calloc, hcopy, hcp, hfree]
    simp
  · simp only
    rw [block_set_none_ne (Ne.symm hne), block_update_same _ (by simp)]
    simp [List.drop_replicate]
  · exact block_set_none_same _ _
  · intro hshrink
    simp only
    rw [block_set_none_ne (Ne.symm hne), block_update_same _ (by simp)]
    have hmin : min bb.len new_len = new_len := by omega
    simp [hmin]

/-- Witness of C5: an owned 4-byte buffer with cursor 2, shrunk to 2 bytes. -/
theorem bb_resize_owned_witness :
    ∃ m1 bb1, bb_resize [some [1, 2, 3, 4]] { pos := 2, wrapped := false, len := 4, buf := 0 } 2
        = .ok (m1, bb1, true) ∧
      bb1.len = 2 ∧ bb1.pos = 0 ∧ bb1.wrapped = false ∧
      block m1 bb1.buf = some ([1, 2, 3, 4].take (min 4 2)
        ++ List.replicate (2 - min 4 2) 0) ∧
      block m1 0 = none ∧
      (2 < 4 → block m1 bb1.buf = some ([1, 2, 3, 4].take 2)) :=
  bb_resize_owned [some [1, 2, 3, 4]] { pos := 2, wrapped := false, len := 4, buf := 0 } 2
    [1, 2, 3, 4] rfl rfl (by decide)

/-! ## Equality of contents -/

theorem bb_equals_loop_spec {m : Memory} {bb1 bb2 : byte_buffer} {s1 s2 : List Nat}
    (h1 : block m bb1.buf = some s1) (h2 : block m bb2.buf = some s2)
    (hl1 : bb1.len ≤ s1.length) (hl2 : bb1.len ≤ s2.length) (h32 : bb1.len < UINT32_MOD)
    (fuel : Nat) :
    ∀ i, i ≤ bb1.len → bb1.len - i < fuel →
      ∃ r, bb_equals_loop m bb1 bb2 fuel i = .ok r ∧
        (r = true ↔ ∀ j, i ≤ j → j < bb1.len → s1.getD j 0 = s2.getD j 0) := by
  induction fuel with
  | zero => intro i _ hf; omega
  | succ fuel ih =>
    intro i hi hf
    unfold bb_equals_loop
    by_cases hlt : i < bb1.len
    · rw [if_pos hlt, load_ok h1 (by omega), load_ok h2 (by omega)]
      simp only
      by_cases hxy : s1.getD i 0 = s2.getD i 0
      · have hmod : (i + 1) % UINT32_MOD = i + 1 := Nat.mod_eq_of_lt (by omega)
        rw [if_neg (by simpa using hxy), hmod]
        obtain ⟨r, hr, hiff⟩ := ih (i + 1) (by omega) (by omega)
        refine ⟨r, hr, hiff.trans ⟨?_, ?_⟩⟩
        · intro hall j hij hj
          by_cases hji : j = i
          · rw [hji]; exact hxy
          · exact hall j (by omega) hj
        · intro hall j hij hj
          exact hall j (by omega) hj
      · rw [if_pos hxy]
        refine ⟨false, rfl, ?_⟩
        simp only [Bool.false_eq_true, false_iff]
        intro hall
        exact hxy (hall i (Nat.le_refl _) hlt)
    · rw [if_neg hlt]
      refine ⟨true, rfl, ?_⟩
      simp only [true_iff]
      intro j hij hj
      omega

theorem bb_equals_spec {m : Memory} {bb1 bb2 : byte_buffer} {s1 s2 : List Nat}
    (h1 : block m bb1.buf = some s1) (h2 : block m bb2.buf = some s2)
    (hl1 : bb1.len ≤ s1.length) (hl2 : bb2.len ≤ s2.length) (h32 : bb1.len < UINT32_MOD)
    {fuel : Nat} (hfuel : bb1.len < fuel) :
    ∃ r, bb_equals fuel m bb1 bb2 = .ok r ∧
      (r = true ↔ bb1.len = bb2.len ∧ ∀ j, j < bb1.len → s1.getD j 0 = s2.getD j 0) := by
  unfold bb_equals
  by_cases hlen : bb1.len = bb2.len
  · rw [if_neg (by simpa using hlen)]
    obtain ⟨r, hr, hiff⟩ := bb_equals_loop_spec h1 h2 hl1 (by omega) h32 fuel 0
      (Nat.zero_le _) (by omega)
    refine ⟨r, hr, hiff.trans ⟨?_, ?_⟩⟩
    · intro hall
      exact ⟨hlen, fun j hj => hall j (Nat.zero_le _) hj⟩
    · intro hall j _ hj
      exact hall.2 j hj
  · rw [if_pos hlen]
    refine ⟨false, rfl, ?_⟩
    simp only [Bool.false_eq_true, false_iff]
    intro hall
    exact hlen hall.1

theorem bb_equals_loop_diverges {m : Memory} {bb1 bb2 : byte_buffer} {s1 s2 : List Nat}
    (h1 : block m bb1.buf = some s1) (h2 : block m bb2.buf = some s2)
    (hl1 : bb1.len ≤ s1.length) (hl2 : bb1.len ≤ s2.length) (h32 : UINT32_MOD ≤ bb1.len)
    (hsame : ∀ j, j < UINT32_MOD → s1.getD j 0 = s2.getD j 0) (fuel : Nat) :
    ∀ i, i < UINT32_MOD → bb_equals_loop m bb1 bb2 fuel i = .error .out_of_fuel := by
  induction fuel with
  | zero => intro i _; rfl
  | succ fuel ih =>
    intro i hi
    unfold bb_equals_loop
    rw [if_pos (by omega), load_ok h1 (by omega), load_ok h2 (by omega)]
    simp only
    rw [if_neg (by simpa using hsame i hi)]
    exact ih _ (Nat.mod_lt _ (by decide))

theorem bb_equals_diverges {m : Memory} {bb1 bb2 : byte_buffer} {s1 s2 : List Nat}
    (h1 : block m bb1.buf = some s1) (h2 : block m bb2.buf = some s2)
    (hlen : bb1.len = bb2.len)
    (hl1 : bb1.len ≤ s1.length) (hl2 : bb1.len ≤ s2.length) (h32 : UINT32_MOD ≤ bb1.len)
    (hsame : ∀ j, j < UINT32_MOD → s1.getD j 0 = s2.getD j 0) (fuel : Nat) :
    bb_equals fuel m bb1 bb2 = .error .out_of_fuel := by
  unfold bb_equals
  rw [if_neg (by simpa using hlen)]
  exact bb_equals_loop_diverges h1 h2 hl1 hl2 h32 hsame fuel 0 (by decide)

theorem bb_equals_loop_fields (m : Memory) (bb1 bb2 : byte_buffer) (p1 p2 : Nat)
    (w1 w2 : Bool) (fuel : Nat) :
    ∀ i, bb_equals_loop m { bb1 with pos := p1, wrapped := w1 }
        { bb2 with pos := p2, wrapped := w2 } fuel i = bb_equals_loop m bb1 bb2 fuel i := by
  induction fuel with
  | zero => intro i; rfl
  | succ fuel ih =>
    intro i
    simp only [bb_equals_loop, ih]

theorem bb_equals_fields (m : Memory) (bb1 bb2 : byte_buffer) (p1 p2 : Nat)
    (w1 w2 : Bool) (fuel : Nat) :
    bb_equals fuel m { bb1 with pos := p1, wrapped := w1 }
        { bb2 with pos := p2, wrapped := w2 } = bb_equals fuel m bb1 bb2 := by
  simp only [bb_equals, bb_equals_loop_fields]

/-- C7 (amended): for two buffers with live storage of at least their capacity, the first
of capacity below `2 ^ 32`, `bb_equals` returns (with fuel above that capacity) a result
that is true exactly when the capacities are equal and the bytes agree at every index
below the capacity; the result is the same whatever the cursors and ownership flags. -/
theorem bb_equals_iff (m : Memory) (bb1 bb2 : byte_buffer) (s1 s2 : List Nat) (fuel : Nat)
    (h1 : block m bb1.buf = some s1) (h2 : block m bb2.buf = some s2)
    (hl1 : bb1.len ≤ s1.length) (hl2 : bb2.len ≤ s2.length)
    (h32 : bb1.len < UINT32_MOD) (hfuel : bb1.len < fuel) :
    ∃ r, bb_equals fuel m bb1 bb2 = .ok r ∧
      (r = true ↔ bb1.len = bb2.len ∧ ∀ j, j < bb1.len → s1.getD j 0 = s2.getD j 0) ∧
      ∀ p1 w1 p2 w2, bb_equals fuel m { bb1 with pos := p1, wrapped := w1 }
        { bb2 with pos := p2, wrapped := w2 } = .ok r := by
  obtain ⟨r, hr, hiff⟩ := bb_equals_spec h1 h2 hl1 hl2 h32 hfuel
  refine ⟨r, hr, hiff, ?_⟩
  intro p1 w1 p2 w2
  rw [bb_equals_fields, hr]

/-- Witness of C7: an owned and a wrapped 3-byte buffer with equal bytes and different
cursors. -/
theorem bb_equals_iff_witness :
    ∃ r, bb_equals 4 [some [1, 2, 3], some [1, 2, 3]]
        { pos := 1, wrapped := false, len := 3, buf := 0 }
        { pos := 0, wrapped := true, len := 3, buf := 1 } = .ok r ∧
      (r = true ↔ 3 = 3 ∧ ∀ j, j < 3 → [1, 2, 3].getD j 0 = [1, 2, 3].getD j 0) ∧
      ∀ p1 w1 p2 w2, bb_equals 4 [some [1, 2, 3], some [1, 2, 3]]
        { pos := p1, wrapped := w1, len := 3, buf := 0 }
        { pos := p2, wrapped := w2, len := 3, buf := 1 } = .ok r :=
  bb_equals_iff [some [1, 2, 3], some [1, 2, 3]]
    { pos := 1, wrapped := false, len := 3, buf := 0 }
    { pos := 0, wrapped := true, len := 3, buf := 1 } [1, 2, 3] [1, 2, 3] 4
    rfl rfl (by decide) (by decide) (by decide) (by decide)

/-- Counterexample to C7 as stated: two zeroed buffers of capacity `2 ^ 32` have the same
capacity and the same bytes, yet `bb_equals` returns no result on them, whatever the
fuel: its 32-bit counter wraps to 0 before reaching the capacity. -/
theorem bb_equals_counterexample :
    (bb_new [] UINT32_MOD).2.len = (bb_new (bb_new [] UINT32_MOD).1 UINT32_MOD).2.len ∧
    block (bb_new (bb_new [] UINT32_MOD).1 UINT32_MOD).1 (bb_new [] UINT32_MOD).2.buf
      = some (List.replicate UINT32_MOD 0) ∧
    block (bb_new (bb_new [] UINT32_MOD).1 UINT32_MOD).1
        (bb_new (bb_new [] UINT32_MOD).1 UINT32_MOD).2.buf
      = some (List.replicate UINT32_MOD 0) ∧
    ¬ ∃ fuel r, bb_equals fuel (bb_new (bb_new [] UINT32_MOD).1 UINT32_MOD).1
        (bb_new [] UINT32_MOD).2 (bb_new (bb_new [] UINT32_MOD).1 UINT32_MOD).2 = .ok r := by
  have h1 : block (bb_new (bb_new [] UINT32_MOD).1 UINT32_MOD).1 (bb_new [] UINT32_MOD).2.buf
      = some (List.replicate UINT32_MOD 0) := rfl
  have h2 : block (bb_new (bb_new [] UINT32_MOD).1 UINT32_MOD).1
      (bb_new (bb_new [] UINT32_MOD).1 UINT32_MOD).2.buf
      = some (List.replicate UINT32_MOD 0) := rfl
  refine ⟨rfl, h1, h2, ?_⟩
  rintro ⟨fuel, r, hr⟩
  have hlen : (bb_new [] UINT32_MOD).2.len ≤ (List.replicate UINT32_MOD 0).length := by
    rw [List.length_replicate]
    exact Nat.le_refl _
  have hdiv := bb_equals_diverges h1 h2 rfl hlen hlen (Nat.le_refl _) (fun _ _ => rfl) fuel
  rw [hdiv] at hr
  cases hr

/-! ## Construction and clearing -/

theorem getD_replicate_zero (n j : Nat) : (List.replicate n 0).getD j 0 = 0 := by
  rw [List.getD_eq_getElem?_getD, List.getElem?_replicate]
  split <;> rfl

/-- C8: for every length `n` (a `size_t`), `bb_new` yields an owned buffer of capacity `n`
with cursor 0 whose storage is a live block of `n` bytes, each of which reads as zero,
and `bb_bytes_left` of it is `n`. -/
theorem bb_new_zeroed (m : Memory) (n : Nat) (hn : n < SIZE_MOD) :
    (bb_new m n).2.wrapped = false ∧ (bb_new m n).2.len = n ∧ (bb_new m n).2.pos = 0 ∧
    block (bb_new m n).1 (bb_new m n).2.buf = some (List.replicate n 0) ∧
    (∀ i, i < n → load (bb_new m n).1 (bb_new m n).2.buf i = .ok 0) ∧
    bb_bytes_left (bb_new m n).2 = n := by
  have hb : block (bb_new m n).1 (bb_new m n).2.buf = some (List.replicate n 0) :=
    block_append_new m _
  refine ⟨rfl, rfl, rfl, hb, ?_, ?_⟩
  · intro i hi
    rw [load_ok hb (by simpa using hi), getD_replicate_zero]
  · simp only [bb_bytes_left, bb_new, calloc, SIZE_MOD] at hn ⊢
    omega

/-- Witness of C8: a new buffer of 4 bytes in a memory that already holds a block. -/
theorem bb_new_zeroed_witness :
    (bb_new [some [7]] 4).2.wrapped = false ∧ (bb_new [some [7]] 4).2.len = 4 ∧
    (bb_new [some [7]] 4).2.pos = 0 ∧
    block (bb_new [some [7]] 4).1 (bb_new [some [7]] 4).2.buf = some (List.replicate 4 0) ∧
    (∀ i, i < 4 → load (bb_new [some [7]] 4).1 (bb_new [some [7]] 4).2.buf i = .ok 0) ∧
    bb_bytes_left (bb_new [some [7]] 4).2 = 4 :=
  bb_new_zeroed [some [7]] 4 (by decide)

theorem bb_clear_ok {m : Memory} {bb : byte_buffer} {blk : List Nat}
    (hblk : block m bb.buf = some blk) (hlen : bb.len ≤ blk.length) :
    bb_clear m bb
      = .ok (update m bb.buf (List.replicate bb.len 0 ++ blk.drop bb.len), bb) := by
  simp [bb_clear, memset_ok 0 bb.len hblk hlen]

/-- C10: on a buffer whose storage is live and holds at least `len` bytes, `bb_clear`
succeeds and returns the buffer with every field as before (cursor, capacity, ownership
flag, storage address), while the first `len` bytes of the storage become zero and the
bytes beyond them, and all other blocks, are untouched. -/
theorem bb_clear_frame (m : Memory) (bb : byte_buffer) (blk : List Nat)
    (hblk : block m bb.buf = some blk) (hlen : bb.len ≤ blk.length) :
    ∃ m1 bb1, bb_clear m bb = .ok (m1, bb1) ∧
      bb1.pos = bb.pos ∧ bb1.len = bb.len ∧ bb1.wrapped = bb.wrapped ∧ bb1.buf = bb.buf ∧
      block m1 bb.buf = some (List.replicate bb.len 0 ++ blk.drop bb.len) ∧
      ∀ q, q ≠ bb.buf → block m1 q = block m q := by
  refine ⟨_, bb, bb_clear_ok hblk hlen, rfl, rfl, rfl, rfl,
    block_update_same _ (block_lt hblk), ?_⟩
  intro q hq
  exact block_update_ne _ (Ne.symm hq)

/-- Witness of C10: clearing a 3-byte buffer whose cursor is 2. -/
theorem bb_clear_frame_witness :
    ∃ m1 bb1, bb_clear [some [1, 2, 3]] { pos := 2, wrapped := false, len := 3, buf := 0 }
        = .ok (m1, bb1) ∧
      bb1.pos = 2 ∧ bb1.len = 3 ∧ bb1.wrapped = false ∧ bb1.buf = 0 ∧
      block m1 0 = some (List.replicate 3 0 ++ [1, 2, 3].drop 3) ∧
      ∀ q, q ≠ 0 → block m1 q = block [some [1, 2, 3]] q :=
  bb_clear_frame [some [1, 2, 3]] { pos := 2, wrapped := false, len := 3, buf := 0 }
    [1, 2, 3] rfl (by decide)

theorem getD_cleared (n j : Nat) (rest : List Nat) :
    (List.replicate n 0 ++ rest).getD j 0 = if j < n then 0 else rest.getD (j - n) 0 := by
  simp only [List.getD_eq_getElem?_getD, List.getElem?_append, List.length_replicate,
    List.getElem?_replicate]
  split <;> simp_all

theorem bb_clear_twice {m : Memory} {bb : byte_buffer} {blk : List Nat}
    (hblk : block m bb.buf = some blk) :
    bb_clear (update m bb.buf (List.replicate bb.len 0 ++ blk.drop bb.len)) bb
      = .ok (update m bb.buf (List.replicate bb.len 0 ++ blk.drop bb.len), bb) := by
  have hb := block_update_same (List.replicate bb.len 0 ++ blk.drop bb.len) (block_lt hblk)
  rw [bb_clear_ok hb (by simp), update_update,
    List.drop_left' (List.length_replicate _ _)]

theorem bb_clear_new_blocks {m : Memory} {bb : byte_buffer} {blk : List Nat}
    (hblk : block m bb.buf = some blk) :
    block (bb_new (update m bb.buf (List.replicate bb.len 0 ++ blk.drop bb.len)) bb.len).1
        bb.buf = some (List.replicate bb.len 0 ++ blk.drop bb.len) ∧
    block (bb_new (update m bb.buf (List.replicate bb.len 0 ++ blk.drop bb.len)) bb.len).1
        (bb_new (update m bb.buf (List.replicate bb.len 0 ++ blk.drop bb.len)) bb.len).2.buf
      = some (List.replicate bb.len 0) := by
  constructor
  · have hlt : bb.buf < (update m bb.buf
        (List.replicate bb.len 0 ++ blk.drop bb.len)).length := by
      rw [length_update]
      exact block_lt hblk
    exact (block_append_old _ hlt).trans (block_update_same _ (block_lt hblk))
  · exact block_append_new _ _

/-- C9 (amended): for a buffer of capacity below `2 ^ 32` whose storage is live and holds
at least `len` bytes, `bb_clear` succeeds, a second `bb_clear` succeeds and leaves memory
exactly as the first did, and in either state `bb_equals` (with fuel above the capacity)
returns true between the buffer and a buffer newly made by `bb_new` with the same
capacity, in both argument orders. -/
theorem bb_clear_idempotent (m : Memory) (bb : byte_buffer) (blk : List Nat) (fuel : Nat)
    (hblk : block m bb.buf = some blk) (hlen : bb.len ≤ blk.length)
    (h32 : bb.len < UINT32_MOD) (hfuel : bb.len < fuel) :
    ∃ m1 m2, bb_clear m bb = .ok (m1, bb) ∧ bb_clear m1 bb = .ok (m2, bb) ∧ m2 = m1 ∧
      bb_equals fuel (bb_new m1 bb.len).1 bb (bb_new m1 bb.len).2 = .ok true ∧
      bb_equals fuel (bb_new m1 bb.len).1 (bb_new m1 bb.len).2 bb = .ok true ∧
      bb_equals fuel (bb_new m2 bb.len).1 bb (bb_new m2 bb.len).2 = .ok true ∧
      bb_equals fuel (bb_new m2 bb.len).1 (bb_new m2 bb.len).2 bb = .ok true := by
  obtain ⟨hb, hn⟩ := @bb_clear_new_blocks m bb blk hblk
  have hsame : ∀ j, j < bb.len →
      (List.replicate bb.len 0 ++ blk.drop bb.len).getD j 0
        = (List.replicate bb.len 0).getD j 0 := by
    intro j hj
    rw [getD_cleared, if_pos hj, getD_replicate_zero]
  have e1 : bb_equals fuel
      (bb_new (update m bb.buf (List.replicate bb.len 0 ++ blk.drop bb.len)) bb.len).1 bb
      (bb_new (update m bb.buf (List.replicate bb.len 0 ++ blk.drop bb.len)) bb.len).2
      = .ok true := by
    obtain ⟨r, hr, hiff⟩ := bb_equals_spec hb hn (by simp) (by simp [bb_new, calloc])
      h32 hfuel
    have hrt : r = true := hiff.mpr ⟨rfl, hsame⟩
    rw [hr, hrt]
  have e2 : bb_equals fuel
      (bb_new (update m bb.buf (List.replicate bb.len 0 ++ blk.drop bb.len)) bb.len).1
      (bb_new (update m bb.buf (List.replicate bb.len 0 ++ blk.drop bb.len)) bb.len).2 bb
      = .ok true := by
    obtain ⟨r, hr, hiff⟩ := @bb_equals_spec _
      (bb_new (update m bb.buf (List.replicate bb.len 0 ++ blk.drop bb.len)) bb.len).2
      bb _ _ hn hb (by simp [bb_new, calloc]) (by simp) h32 fuel hfuel
    have hrt : r = true := hiff.mpr ⟨rfl, fun j hj => (hsame j hj).symm⟩
    rw [hr, hrt]
  exact ⟨_, _, bb_clear_ok hblk hlen, bb_clear_twice hblk, rfl, e1, e2, e1, e2⟩

/-- Witness of C9: clearing a 3-byte buffer with cursor 1, once and twice. -/
theorem bb_clear_idempotent_witness :
    ∃ m1 m2, bb_clear [some [1, 2, 3]] { pos := 1, wrapped := false, len := 3, buf := 0 }
        = .ok (m1, { pos := 1, wrapped := false, len := 3, buf := 0 }) ∧
      bb_clear m1 { pos := 1, wrapped := false, len := 3, buf := 0 }
        = .ok (m2, { pos := 1, wrapped := false, len := 3, buf := 0 }) ∧ m2 = m1 ∧
      bb_equals 4 (bb_new m1 3).1 { pos := 1, wrapped := false, len := 3, buf := 0 }
        (bb_new m1 3).2 = .ok true ∧
      bb_equals 4 (bb_new m1 3).1 (bb_new m1 3).2
        { pos := 1, wrapped := false, len := 3, buf := 0 } = .ok true ∧
      bb_equals 4 (bb_new m2 3).1 { pos := 1, wrapped := false, len := 3, buf := 0 }
        (bb_new m2 3).2 = .ok true ∧
      bb_equals 4 (bb_new m2 3).1 (bb_new m2 3).2
        { pos := 1, wrapped := false, len := 3, buf := 0 } = .ok true :=
  bb_clear_idempotent [some [1, 2, 3]] { pos := 1, wrapped := false, len := 3, buf := 0 }
    [1, 2, 3] 4 rfl (by decide) (by decide) (by decide)

theorem bb_clear_equals_diverges {m : Memory} {bb : byte_buffer} {blk : List Nat}
    (hblk : block m bb.buf = some blk) (h32 : UINT32_MOD ≤ bb.len) (fuel : Nat) :
    bb_equals fuel
      (bb_new (update m bb.buf (List.replicate bb.len 0 ++ blk.drop bb.len)) bb.len).1 bb
      (bb_new (update m bb.buf (List.replicate bb.len 0 ++ blk.drop bb.len)) bb.len).2
      = .error .out_of_fuel := by
  obtain ⟨hb, hn⟩ := @bb_clear_new_blocks m bb blk hblk
  apply bb_equals_diverges hb hn rfl (by simp) (by simp) h32
  intro j hj
  rw [getD_cleared, if_pos (by omega), getD_replicate_zero]

/-- Counterexample to C9 as stated: clearing a zeroed buffer of capacity `2 ^ 32`
succeeds, but `bb_equals` between it and a new buffer of the same capacity returns no
result, whatever the fuel. -/
theorem bb_clear_equals_counterexample :
    ∃ m1, bb_clear (bb_new [] UINT32_MOD).1 (bb_new [] UINT32_MOD).2
        = .ok (m1, (bb_new [] UINT32_MOD).2) ∧
      ¬ ∃ fuel r, bb_equals fuel (bb_new m1 UINT32_MOD).1 (bb_new [] UINT32_MOD).2
        (bb_new m1 UINT32_MOD).2 = .ok r := by
  have hblk : block (bb_new [] UINT32_MOD).1 (bb_new [] UINT32_MOD).2.buf
      = some (List.replicate UINT32_MOD 0) := rfl
  have hlen : (bb_new [] UINT32_MOD).2.len ≤ (List.replicate UINT32_MOD 0).length := by
    rw [List.length_replicate]
    exact Nat.le_refl _
  refine ⟨_, bb_clear_ok hblk hlen, ?_⟩
  rintro ⟨fuel, r, hr⟩
  have hdiv := bb_clear_equals_diverges hblk (Nat.le_refl _) fuel
  have hcon : Except.error Fault.out_of_fuel = Except.ok r := hdiv.symm.trans hr
  cases hcon

/-! ## Cloning -/

theorem bb_clone_ok {m : Memory} {bb : byte_buffer} {blk : List Nat} (junk : Nat → Nat)
    (hblk : block m bb.buf = some blk) (hlen : bb.len ≤ blk.length) :
    ∃ m1, bb_clone m junk bb
        = .ok (m1, { pos := bb.pos, wrapped := false, len := bb.len, buf := m.length }) ∧
      block m1 m.length = some (blk.take bb.len) ∧
      ∀ q, q < m.length → block m1 q = block m q := by
  have hlt : bb.buf < m.length := block_lt hblk
  have hd : block (m ++ [some ((List.range bb.len).map junk)]) m.length
      = some ((List.range bb.len).map junk) := block_append_new m _
  have hs : block (m ++ [some ((List.range bb.len).map junk)]) bb.buf = some blk := by
    rw [block_append_old _ hlt, hblk]
  have hcp := memcpy_ok (n := bb.len) hd hs (by simp) hlen
  have hnil : ((List.range bb.len).map junk).drop bb.len = [] :=
    List.drop_eq_nil_of_le (by simp)
  rw [hnil, List.append_nil] at hcp
  refine ⟨update (m ++ [some ((List.range bb.len).map junk)]) m.length (blk.take bb.len),
    ?_, block_update_same _ (by simp), ?_⟩
  · simp only [bb_clone, bb_new_copy, malloc, hcp]
  · intro q hq
    rw [block_update_ne _ (by omega), block_append_old _ hq]

theorem getD_take_of_lt (l : List Nat) {j n : Nat} (h : j < n) :
    (l.take n).getD j 0 = l.getD j 0 := by
  simp only [List.getD_eq_getElem?_getD, List.getElem?_take, if_pos h]

theorem store_bytes_frame {m m2 : Memory} {p i q : Nat} {bs : List Nat}
    (h : store_bytes m p i bs = .ok m2) (hq : q ≠ p) : block m2 q = block m q := by
  unfold store_bytes at h
  split at h
  · split at h
    · simp only [Except.ok.injEq] at h
      rw [← h, block_update_ne _ (Ne.symm hq)]
    · simp at h
  · simp at h

theorem put_uint_frame {w : Nat} {o : ByteOrder} {m m2 : Memory} {bb bb2 : byte_buffer}
    {v q : Nat} (h : put_uint w o m bb v = .ok (m2, bb2)) (hq : q ≠ bb.buf) :
    block m2 q = block m q := by
  unfold put_uint at h
  split at h
  · next m1 hs =>
    simp only [Except.ok.injEq, Prod.mk.injEq] at h
    rw [← h.1]
    exact store_bytes_frame hs hq
  · simp at h

/-- C6 (amended): for a buffer, owned or wrapped, whose storage `blk` is live and holds at
least `len` bytes, `bb_clone` succeeds; the clone has the same capacity and cursor, owns
its storage, and that storage is a fresh block, at another address, holding exactly the
first `len` bytes of `blk`, the original block being unchanged.  When the capacity is
below `2 ^ 32`, `bb_equals` of the clone and the original (fuel above the capacity)
returns true.  Writes made through the clone (`bb_put`, `bb_clear`, a fixed-width put, or
any replacement of the clone's block) leave the original's block as it was; the
original's struct, hence its cursor, is not an argument of those writes. -/
theorem bb_clone_spec (m : Memory) (junk : Nat → Nat) (bb : byte_buffer) (blk : List Nat)
    (hblk : block m bb.buf = some blk) (hlen : bb.len ≤ blk.length) :
    ∃ m1 c, bb_clone m junk bb = .ok (m1, c) ∧
      c.len = bb.len ∧ c.pos = bb.pos ∧ c.wrapped = false ∧ c.buf ≠ bb.buf ∧
      block m1 c.buf = some (blk.take bb.len) ∧ block m1 bb.buf = some blk ∧
      (∀ fuel, bb.len < UINT32_MOD → bb.len < fuel →
        bb_equals fuel m1 c bb = .ok true) ∧
      (∀ v, ∃ m2 c2, bb_put m1 c v = .ok (m2, c2) ∧ block m2 bb.buf = some blk) ∧
      (∃ m2, bb_clear m1 c = .ok (m2, c) ∧ block m2 bb.buf = some blk) ∧
      (∀ w o v m2 c2, put_uint w o m1 c v = .ok (m2, c2) → block m2 bb.buf = some blk) ∧
      (∀ d, block (update m1 c.buf d) bb.buf = some blk) := by
  have hlt : bb.buf < m.length := block_lt hblk
  obtain ⟨m1, hcl, hc, hold⟩ := bb_clone_ok junk hblk hlen
  have hb : block m1 bb.buf = some blk := by rw [hold _ hlt, hblk]
  have hne : m.length ≠ bb.buf := by omega
  have hclen : (blk.take bb.len).length = bb.len := by
    rw [List.length_take]
    omega
  refine ⟨m1, _, hcl, rfl, rfl, rfl, hne, hc, hb, ?_, ?_, ?_, ?_, ?_⟩
  · intro fuel h32 hfuel
    obtain ⟨r, hr, hiff⟩ := @bb_equals_spec m1
      { pos := bb.pos, wrapped := false, len := bb.len, buf := m.length } bb _ _
      hc hb (by simp [hclen]) hlen h32 fuel hfuel
    have hrt : r = true := hiff.mpr ⟨rfl, fun j hj => getD_take_of_lt blk hj⟩
    rw [hr, hrt]
  · intro v
    by_cases hfull : bb.len ≤ bb.pos
    · exact ⟨m1, _, bb_put_full _ _ _ hfull, hb⟩
    · refine ⟨_, _, @bb_put_room m1
        { pos := bb.pos, wrapped := false, len := bb.len, buf := m.length } _ v hc
        (by simpa using hfull) (by simp [hclen]), ?_⟩
      rw [block_update_ne _ hne, hb]
  · refine ⟨_, @bb_clear_ok m1
      { pos := bb.pos, wrapped := false, len := bb.len, buf := m.length } _ hc
      (by simp [hclen]), ?_⟩
    rw [block_update_ne _ hne, hb]
  · intro w o v m2 c2 hput
    rw [put_uint_frame hput (Ne.symm hne), hb]
  · intro d
    rw [block_update_ne _ hne, hb]

/-- Witness of C6: cloning a 3-byte buffer with cursor 2 wrapped around a 4-byte block. -/
theorem bb_clone_spec_witness :
    ∃ m1 c, bb_clone [some [1, 2, 3, 4]] (fun _ => 0xCD)
        { pos := 2, wrapped := true, len := 3, buf := 0 } = .ok (m1, c) ∧
      c.len = 3 ∧ c.pos = 2 ∧ c.wrapped = false ∧ c.buf ≠ 0 ∧
      block m1 c.buf = some ([1, 2, 3, 4].take 3) ∧ block m1 0 = some [1, 2, 3, 4] ∧
      (∀ fuel, 3 < UINT32_MOD → 3 < fuel →
        bb_equals fuel m1 c { pos := 2, wrapped := true, len := 3, buf := 0 } = .ok true) ∧
      (∀ v, ∃ m2 c2, bb_put m1 c v = .ok (m2, c2) ∧ block m2 0 = some [1, 2, 3, 4]) ∧
      (∃ m2, bb_clear m1 c = .ok (m2, c) ∧ block m2 0 = some [1, 2, 3, 4]) ∧
      (∀ w o v m2 c2, put_uint w o m1 c v = .ok (m2, c2) → block m2 0 = some [1, 2, 3, 4]) ∧
      (∀ d, block (update m1 c.buf d) 0 = some [1, 2, 3, 4]) :=
  bb_clone_spec [some [1, 2, 3, 4]] (fun _ => 0xCD)
    { pos := 2, wrapped := true, len := 3, buf := 0 } [1, 2, 3, 4] rfl (by decide)

theorem bb_clone_equals_diverges {m1 : Memory} {bb c : byte_buffer} {blk : List Nat}
    (hb : block m1 bb.buf = some blk) (hc : block m1 c.buf = some (blk.take bb.len))
    (hclen : c.len = bb.len) (hlen : bb.len ≤ blk.length) (h32 : UINT32_MOD ≤ bb.len)
    (fuel : Nat) : bb_equals fuel m1 c bb = .error .out_of_fuel := by
  have htl : (blk.take bb.len).length = bb.len := by
    rw [List.length_take]
    omega
  apply bb_equals_diverges hc hb hclen (by omega) (by omega) (by omega)
  intro j hj
  exact getD_take_of_lt blk (by omega)

/-- Counterexample to C6 as stated: cloning a zeroed buffer of capacity `2 ^ 32` succeeds,
but `bb_equals` of the clone and the original returns no result, whatever the fuel. -/
theorem bb_clone_equals_counterexample :
    ∃ m1 c, bb_clone (bb_new [] UINT32_MOD).1 (fun _ => 0) (bb_new [] UINT32_MOD).2
        = .ok (m1, c) ∧
      ¬ ∃ fuel r, bb_equals fuel m1 c (bb_new [] UINT32_MOD).2 = .ok r := by
  have hblk : block (bb_new [] UINT32_MOD).1 (bb_new [] UINT32_MOD).2.buf
      = some (List.replicate UINT32_MOD 0) := rfl
  have hlen : (bb_new [] UINT32_MOD).2.len ≤ (List.replicate UINT32_MOD 0).length := by
    rw [List.length_replicate]
    exact Nat.le_refl _
  obtain ⟨m1, hcl, hc, hold⟩ := bb_clone_ok (fun _ => 0) hblk hlen
  have hb : block m1 (bb_new [] UINT32_MOD).2.buf = some (List.replicate UINT32_MOD 0) :=
    (hold 0 (Nat.zero_lt_one)).trans hblk
  refine ⟨m1, _, hcl, ?_⟩
  rintro ⟨fuel, r, hr⟩
  have hdiv := bb_clone_equals_diverges
    (c := { pos := (bb_new [] UINT32_MOD).2.pos, wrapped := false,
            len := (bb_new [] UINT32_MOD).2.len, buf := (bb_new [] UINT32_MOD).1.length })
    hb hc rfl hlen (Nat.le_refl _) fuel
  have hcon : Except.error Fault.out_of_fuel = Except.ok r := hdiv.symm.trans hr
  cases hcon

/-! ## Search and replace -/

theorem getD_set (s : List Nat) (i j v : Nat) :
    (s.set i v).getD j 0 = if i = j ∧ i < s.length then v else s.getD j 0 := by
  simp only [List.getD_eq_getElem?_getD, List.getElem?_set]
  by_cases hij : i = j
  · subst hij
    by_cases hi : i < s.length
    · simp [hi]
    · simp [hi, List.getElem?_eq_none (Nat.le_of_not_lt hi)]
  · simp [hij]

theorem store_ok {m : Memory} {p i : Nat} {d : List Nat} (v : Nat)
    (hd : block m p = some d) (hi : i < d.length) :
    store m p i v = .ok (update m p (d.set i (v % 256))) := by
  simp [store, hd, hi]

theorem bb_replace_loop_all (bb : byte_buffer) (key rep : Nat) (h32 : bb.len < UINT32_MOD)
    (fuel : Nat) :
    ∀ (m : Memory) (i : Nat) (s : List Nat), block m bb.buf = some s → bb.len ≤ s.length →
      bb.len - i < fuel →
      ∃ s1, bb_replace_loop bb key rep false fuel m i = .ok (update m bb.buf s1, bb) ∧
        s1.length = s.length ∧
        ∀ j, s1.getD j 0
          = if i ≤ j ∧ j < bb.len ∧ s.getD j 0 = key then rep % 256 else s.getD j 0 := by
  induction fuel with
  | zero => intro m i s _ _ hf; omega
  | succ fuel ih =>
    intro m i s hblk hlen hf
    unfold bb_replace_loop
    by_cases hlt : i < bb.len
    · have hmod : (i + 1) % UINT32_MOD = i + 1 := Nat.mod_eq_of_lt (by omega)
      rw [if_pos hlt, load_ok hblk (by omega), hmod]
      simp only
      by_cases hx : s.getD i 0 = key
      · rw [if_pos hx, store_ok rep hblk (by omega)]
        simp only [Bool.false_eq_true, if_false]
        have hb1 := block_update_same (s.set i (rep % 256)) (block_lt hblk)
        obtain ⟨s1, hr, hl, hp⟩ := ih _ (i + 1) _ hb1 (by simpa using hlen) (by omega)
        refine ⟨s1, by rw [hr, update_update], by simpa using hl, ?_⟩
        intro j
        rw [hp j, getD_set]
        by_cases hji : i = j
        · subst hji
          have hi : i < s.length := by omega
          rw [if_neg (fun h => absurd h.1 (by omega)), if_pos ⟨rfl, hi⟩,
            if_pos ⟨Nat.le_refl _, hlt, hx⟩]
        · have h1 : (i + 1 ≤ j) = (i ≤ j) := by
            apply propext
            omega
          simp only [hji, false_and, if_false, h1]
      · rw [if_neg hx]
        obtain ⟨s1, hr, hl, hp⟩ := ih m (i + 1) s hblk hlen (by omega)
        refine ⟨s1, hr, hl, ?_⟩
        intro j
        rw [hp j]
        by_cases hji : i = j
        · subst hji
          rw [if_neg (fun h => absurd h.1 (by omega)), if_neg (fun h => hx h.2.2)]
        · have h1 : (i + 1 ≤ j) = (i ≤ j) := by
            apply propext
            omega
          simp only [h1]
    · rw [if_neg hlt]
      refine ⟨s, by rw [update_block hblk], rfl, ?_⟩
      intro j
      rw [if_neg]
      omega

theorem bb_replace_loop_first (bb : byte_buffer) (key rep : Nat) (h32 : bb.len < UINT32_MOD)
    (fuel : Nat) :
    ∀ (m : Memory) (i : Nat) (s : List Nat), block m bb.buf = some s → bb.len ≤ s.length →
      bb.len - i < fuel →
      ∃ s1, bb_replace_loop bb key rep true fuel m i = .ok (update m bb.buf s1, bb) ∧
        ((∃ k, i ≤ k ∧ k < bb.len ∧ s.getD k 0 = key ∧
            (∀ j, i ≤ j → j < k → s.getD j 0 ≠ key) ∧ s1 = s.set k (rep % 256)) ∨
          ((∀ j, i ≤ j → j < bb.len → s.getD j 0 ≠ key) ∧ s1 = s)) := by
  induction fuel with
  | zero => intro m i s _ _ hf; omega
  | succ fuel ih =>
    intro m i s hblk hlen hf
    unfold bb_replace_loop
    by_cases hlt : i < bb.len
    · have hmod : (i + 1) % UINT32_MOD = i + 1 := Nat.mod_eq_of_lt (by omega)
      rw [if_pos hlt, load_ok hblk (by omega), hmod]
      simp only
      by_cases hx : s.getD i 0 = key
      · rw [if_pos hx, store_ok rep hblk (by omega)]
        simp only [if_true]
        refine ⟨_, rfl, Or.inl ⟨i, Nat.le_refl _, hlt, hx, ?_, rfl⟩⟩
        intro j h1 h2
        omega
      · rw [if_neg hx]
        obtain ⟨s1, hr, hcase⟩ := ih m (i + 1) s hblk hlen (by omega)
        refine ⟨s1, hr, ?_⟩
        rcases hcase with ⟨k, hk1, hk2, hk3, hk4, hk5⟩ | ⟨hnone, hs⟩
        · refine Or.inl ⟨k, by omega, hk2, hk3, ?_, hk5⟩
          intro j h1 h2
          by_cases hji : j = i
          · rw [hji]; exact hx
          · exact hk4 j (by omega) h2
        · refine Or.inr ⟨?_, hs⟩
          intro j h1 h2
          by_cases hji : j = i
          · rw [hji]; exact hx
          · exact hnone j (by omega) h2
    · rw [if_neg hlt]
      refine ⟨s, by rw [update_block hblk], Or.inr ⟨?_, rfl⟩⟩
      intro j h1 h2
      omega

theorem bb_replace_loop_diverges (bb : byte_buffer) (key rep : Nat) (first : Bool)
    {m : Memory} {s : List Nat} (hblk : block m bb.buf = some s) (hlen : bb.len ≤ s.length)
    (h32 : UINT32_MOD ≤ bb.len) (hno : ∀ j, j < UINT32_MOD → s.getD j 0 ≠ key)
    (fuel : Nat) :
    ∀ i, i < UINT32_MOD → bb_replace_loop bb key rep first fuel m i = .error .out_of_fuel := by
  induction fuel with
  | zero => intro i _; rfl
  | succ fuel ih =>
    intro i hi
    unfold bb_replace_loop
    rw [if_pos (by omega), load_ok hblk (by omega)]
    simp only
    rw [if_neg (hno i hi)]
    exact ih _ (Nat.mod_lt _ (by decide))

/-- C11 (amended): for a buffer of capacity below `2 ^ 32` whose storage `s` is live and
holds at least `len` bytes, `bb_replace` returns (with fuel above the capacity) the buffer
with every field as before, hence the same cursor and capacity, and changes no block but
the buffer's own.  Without `firstOccuranceOnly` the byte at index `j` of the storage
becomes `rep` when `start ≤ j < len` and it was `key`, and is unchanged otherwise.  With
`firstOccuranceOnly` the storage is `s` with `rep` at the least index `k` with
`start ≤ k < len` and `s[k] = key`, or `s` itself when there is no such index. -/
theorem bb_replace_spec (m : Memory) (bb : byte_buffer) (s : List Nat)
    (key rep start fuel : Nat) (hblk : block m bb.buf = some s) (hlen : bb.len ≤ s.length)
    (h32 : bb.len < UINT32_MOD) (hrep : rep < 256) (hfuel : bb.len < fuel) :
    (∃ s1, bb_replace fuel m bb key rep start false = .ok (update m bb.buf s1, bb) ∧
      s1.length = s.length ∧
      ∀ j, s1.getD j 0
        = if start ≤ j ∧ j < bb.len ∧ s.getD j 0 = key then rep else s.getD j 0) ∧
    (∃ s1, bb_replace fuel m bb key rep start true = .ok (update m bb.buf s1, bb) ∧
      ((∃ k, start ≤ k ∧ k < bb.len ∧ s.getD k 0 = key ∧
          (∀ j, start ≤ j → j < k → s.getD j 0 ≠ key) ∧ s1 = s.set k rep) ∨
        ((∀ j, start ≤ j → j < bb.len → s.getD j 0 ≠ key) ∧ s1 = s))) := by
  have hmod : rep % 256 = rep := Nat.mod_eq_of_lt hrep
  constructor
  · have h := bb_replace_loop_all bb key rep h32 fuel m start s hblk hlen (by omega)
    rw [hmod] at h
    exact h
  · have h := bb_replace_loop_first bb key rep h32 fuel m start s hblk hlen (by omega)
    rw [hmod] at h
    exact h

/-- Witness of C11: the bytes `[0,0,1,0]`, key `0x00`, replacement `0xFF`, start 0; with
`firstOccuranceOnly` the result is `[0xFF,0,1,0]`. -/
theorem bb_replace_spec_witness :
    bb_replace 5 [some [0, 0, 1, 0]] { pos := 0, wrapped := false, len := 4, buf := 0 }
        0x00 0xFF 0 true
      = .ok ([some [0xFF, 0, 1, 0]], { pos := 0, wrapped := false, len := 4, buf := 0 }) ∧
    bb_replace 5 [some [0, 0, 1, 0]] { pos := 0, wrapped := false, len := 4, buf := 0 }
        0x00 0xFF 0 false
      = .ok ([some [0xFF, 0xFF, 1, 0xFF]], { pos := 0, wrapped := false, len := 4, buf := 0 }) ∧
    (∃ s1, bb_replace 5 [some [0, 0, 1, 0]] { pos := 0, wrapped := false, len := 4, buf := 0 }
        0x00 0xFF 0 false
        = .ok (update [some [0, 0, 1, 0]] 0 s1,
            { pos := 0, wrapped := false, len := 4, buf := 0 }) ∧
      s1.length = [0, 0, 1, 0].length ∧
      ∀ j, s1.getD j 0
        = if 0 ≤ j ∧ j < 4 ∧ [0, 0, 1, 0].getD j 0 = 0x00 then 0xFF
          else [0, 0, 1, 0].getD j 0) ∧
    (∃ s1, bb_replace 5 [some [0, 0, 1, 0]] { pos := 0, wrapped := false, len := 4, buf := 0 }
        0x00 0xFF 0 true
        = .ok (update [some [0, 0, 1, 0]] 0 s1,
            { pos := 0, wrapped := false, len := 4, buf := 0 }) ∧
      ((∃ k, 0 ≤ k ∧ k < 4 ∧ [0, 0, 1, 0].getD k 0 = 0x00 ∧
          (∀ j, 0 ≤ j → j < k → [0, 0, 1, 0].getD j 0 ≠ 0x00) ∧
          s1 = [0, 0, 1, 0].set k 0xFF) ∨
        ((∀ j, 0 ≤ j → j < 4 → [0, 0, 1, 0].getD j 0 ≠ 0x00) ∧ s1 = [0, 0, 1, 0]))) :=
  ⟨rfl, rfl,
   bb_replace_spec [some [0, 0, 1, 0]] { pos := 0, wrapped := false, len := 4, buf := 0 }
     [0, 0, 1, 0] 0x00 0xFF 0 5 rfl (by decide) (by decide) (by decide) (by decide)⟩

/-- Counterexample to C11 as stated: on a zeroed buffer of capacity `2 ^ 32` no byte
equals the key 1, so the reference leaves the buffer as it is, but `bb_replace` returns
no result, whatever the fuel: its 32-bit counter wraps to 0 before reaching the capacity. -/
theorem bb_replace_counterexample :
    ¬ ∃ fuel r, bb_replace fuel (bb_new [] UINT32_MOD).1 (bb_new [] UINT32_MOD).2 1 2 0 false
      = .ok r := by
  have hblk : block (bb_new [] UINT32_MOD).1 (bb_new [] UINT32_MOD).2.buf
      = some (List.replicate UINT32_MOD 0) := rfl
  have hlen : (bb_new [] UINT32_MOD).2.len ≤ (List.replicate UINT32_MOD 0).length := by
    rw [List.length_replicate]
    exact Nat.le_refl _
  rintro ⟨fuel, r, hr⟩
  have hdiv := bb_replace_loop_diverges (bb_new [] UINT32_MOD).2 1 2 false hblk hlen
    (Nat.le_refl _) (fun j _ => by rw [getD_replicate_zero]; decide) fuel 0 (by decide)
  have hcon : Except.error Fault.out_of_fuel = Except.ok r := hdiv.symm.trans hr
  cases hcon

/-! ## Bulk puts -/

/-- C12: `bb_put_bytes` increments its counter twice per iteration.  On a zeroed 4-byte
buffer and the array `[1,2,3,4]` it puts only `arr[0]` and `arr[2]`: the storage becomes
`[1,3,0,0]` and the cursor 2, whereas four single-byte puts of `arr[0..3]` give
`[1,2,3,4]` and cursor 4. -/
theorem bb_put_bytes_skips_elements :
    bb_put_bytes 5 [some [0, 0, 0, 0], some [1, 2, 3, 4]]
        { pos := 0, wrapped := false, len := 4, buf := 0 } 1 4
      = .ok ([some [1, 3, 0, 0], some [1, 2, 3, 4]],
          { pos := 2, wrapped := false, len := 4, buf := 0 }) ∧
    put_each [some [0, 0, 0, 0], some [1, 2, 3, 4]]
        { pos := 0, wrapped := false, len := 4, buf := 0 } [1, 2, 3, 4]
      = .ok ([some [1, 2, 3, 4], some [1, 2, 3, 4]],
          { pos := 4, wrapped := false, len := 4, buf := 0 }) :=
  ⟨rfl, rfl⟩

/-! ## Buffer-to-buffer put -/

theorem put_each_full (vs : List Nat) (m : Memory) (bb : byte_buffer) (h : bb.len ≤ bb.pos) :
    put_each m bb vs = .ok (m, bb) := by
  induction vs with
  | nil => rfl
  | cons v vs ih => rw [put_each, bb_put_full m bb v h]; exact ih

theorem put_each_append (a b : List Nat) :
    ∀ (m : Memory) (bb : byte_buffer), put_each m bb (a ++ b)
      = match put_each m bb a with
        | .ok (m1, bb1) => put_each m1 bb1 b
        | .error e => .error e := by
  induction a with
  | nil => intro m bb; rfl
  | cons v a ih =>
    intro m bb
    simp only [List.cons_append, put_each]
    cases hput : bb_put m bb v with
    | error e => rfl
    | ok r =>
      obtain ⟨m1, bb1⟩ := r
      exact ih m1 bb1

theorem put_each_drop {m : Memory} {bb : byte_buffer} {d : List Nat} (vs : List Nat)
    (hblk : block m bb.buf = some d) (hpos : bb.pos ≤ bb.len) (hlen : bb.len ≤ d.length)
    (h32 : bb.len < UINT32_MOD) :
    put_each m bb vs = .ok
      (update m bb.buf (d.take bb.pos
          ++ (vs.take (min (bb.len - bb.pos) vs.length)).map (· % 256)
          ++ d.drop (bb.pos + min (bb.len - bb.pos) vs.length)),
       { bb with pos := bb.pos + min (bb.len - bb.pos) vs.length }) := by
  have hk : (vs.take (min (bb.len - bb.pos) vs.length)).length
      = min (bb.len - bb.pos) vs.length := by
    rw [List.length_take]
    omega
  have hroom := put_each_room (vs.take (min (bb.len - bb.pos) vs.length)) m bb d hblk hlen
    h32 (by rw [hk]; omega)
  rw [hk] at hroom
  conv_lhs => rw [← List.take_append_drop (min (bb.len - bb.pos) vs.length) vs]
  rw [put_each_append, hroom]
  simp only
  by_cases hall : vs.length ≤ bb.len - bb.pos
  · have hnil : vs.drop (min (bb.len - bb.pos) vs.length) = [] :=
      List.drop_eq_nil_of_le (by omega)
    rw [hnil]
    rfl
  · apply put_each_full
    simp only
    omega

theorem bb_put_frame {m m1 : Memory} {bb bb1 : byte_buffer} {v : Nat}
    (h : bb_put m bb v = .ok (m1, bb1)) :
    bb1.buf = bb.buf ∧ bb1.len = bb.len ∧ bb1.wrapped = bb.wrapped ∧
      ∀ q, q ≠ bb.buf → block m1 q = block m q := by
  unfold bb_put at h
  split at h
  · simp only [Except.ok.injEq, Prod.mk.injEq] at h
    rw [← h.1, ← h.2]
    exact ⟨rfl, rfl, rfl, fun _ _ => rfl⟩
  · split at h
    · next m2 hs =>
      simp only [Except.ok.injEq, Prod.mk.injEq] at h
      rw [← h.1, ← h.2]
      refine ⟨rfl, rfl, rfl, ?_⟩
      intro q hq
      unfold store at hs
      split at hs
      · split at hs
        · simp only [Except.ok.injEq] at hs
          rw [← hs, block_update_ne _ (Ne.symm hq)]
        · simp at hs
      · simp at hs
    · simp at h

theorem drop_take_cons (s : List Nat) {i n : Nat} (hi : i < n) (hn : n ≤ s.length) :
    (s.take n).drop i = s.getD i 0 :: (s.take n).drop (i + 1) := by
  have hlt : i < (s.take n).length := by
    rw [List.length_take]
    omega
  rw [List.drop_eq_getElem_cons hlt]
  congr 1
  rw [List.getElem_take, List.getD_eq_getElem?_getD,
    List.getElem?_eq_getElem (by omega : i < s.length)]
  rfl

theorem bb_put_bb_loop_eq (src : byte_buffer) {s : List Nat} (hslen : src.len ≤ s.length)
    (hs32 : src.len < UINT32_MOD) (fuel : Nat) :
    ∀ (m : Memory) (dest : byte_buffer) (i : Nat), block m src.buf = some s →
      dest.buf ≠ src.buf → src.len - i < fuel →
      bb_put_bb_loop src fuel m dest i = put_each m dest ((s.take src.len).drop i) := by
  induction fuel with
  | zero => intro m dest i _ _ hf; omega
  | succ fuel ih =>
    intro m dest i hs hne hf
    unfold bb_put_bb_loop
    by_cases hlt : i < src.len
    · have hmod : (i + 1) % UINT32_MOD = i + 1 := Nat.mod_eq_of_lt (by omega)
      rw [if_pos hlt, load_ok hs (by omega), hmod, drop_take_cons s hlt hslen, put_each]
      simp only
      cases hput : bb_put m dest (s.getD i 0) with
      | error e => rfl
      | ok r =>
        obtain ⟨m1, dest1⟩ := r
        obtain ⟨hbuf, _, _, hfr⟩ := bb_put_frame hput
        simp only
        exact ih m1 dest1 (i + 1) (by rw [hfr _ (Ne.symm hne), hs]) (by rw [hbuf]; exact hne)
          (by omega)
    · rw [if_neg hlt]
      have hnil : (s.take src.len).drop i = [] :=
        List.drop_eq_nil_of_le (by rw [List.length_take]; omega)
      rw [hnil]
      rfl

theorem bb_put_bb_loop_diverges (src : byte_buffer) {s : List Nat} {m : Memory}
    {dest : byte_buffer} (hs : block m src.buf = some s) (hslen : src.len ≤ s.length)
    (hs32 : UINT32_MOD ≤ src.len) (hfull : dest.len ≤ dest.pos) (fuel : Nat) :
    ∀ i, i < UINT32_MOD → bb_put_bb_loop src fuel m dest i = .error .out_of_fuel := by
  induction fuel with
  | zero => intro i _; rfl
  | succ fuel ih =>
    intro i hi
    unfold bb_put_bb_loop
    rw [if_pos (by omega), load_ok hs (by omega)]
    simp only
    rw [bb_put_full m dest _ hfull]
    exact ih _ (Nat.mod_lt _ (by decide))

theorem bb_bytes_left_eq (bb : byte_buffer) (hpos : bb.pos ≤ bb.len) (hlen : bb.len < SIZE_MOD) :
    bb_bytes_left bb = bb.len - bb.pos := by
  simp only [bb_bytes_left, SIZE_MOD] at hlen ⊢
  omega

/-- C13 (amended): let `dest` and `src` have their storage in two different live blocks
`d` and `s`, capacities below `2 ^ 32` and within those blocks, and cursors at most their
capacities.  Then `bb_put_bb` returns (with fuel above the capacity of `src`) exactly what
`bb_put` applied in order to the bytes `src[src.pos], ..., src[src.len-1]` returns; the
block of `src` is unchanged (its struct is only read); the first
`min (bb_bytes_left dest) (bb_bytes_left src)` of those bytes are written at the old
cursor of `dest`, whose cursor advances by that amount, and its other bytes and fields
are unchanged. -/
theorem bb_put_bb_spec (m : Memory) (dest src : byte_buffer) (d s : List Nat) (fuel : Nat)
    (hd : block m dest.buf = some d) (hs : block m src.buf = some s)
    (hne : dest.buf ≠ src.buf)
    (hdpos : dest.pos ≤ dest.len) (hdlen : dest.len ≤ d.length) (hd32 : dest.len < UINT32_MOD)
    (hspos : src.pos ≤ src.len) (hslen : src.len ≤ s.length) (hs32 : src.len < UINT32_MOD)
    (hfuel : src.len < fuel) :
    ∃ m1 dest1, bb_put_bb fuel m dest src = .ok (m1, dest1) ∧
      put_each m dest ((s.take src.len).drop src.pos) = .ok (m1, dest1) ∧
      block m1 src.buf = some s ∧
      dest1 = { dest with pos := dest.pos + min (bb_bytes_left dest) (bb_bytes_left src) } ∧
      block m1 dest.buf = some (d.take dest.pos
        ++ (((s.take src.len).drop src.pos).take
              (min (bb_bytes_left dest) (bb_bytes_left src))).map (· % 256)
        ++ d.drop (dest.pos + min (bb_bytes_left dest) (bb_bytes_left src))) := by
  have heq := bb_put_bb_loop_eq src hslen hs32 fuel m dest src.pos hs hne (by omega)
  have hsrc : ((s.take src.len).drop src.pos).length = src.len - src.pos := by
    rw [List.length_drop, List.length_take]
    omega
  have hdrop := put_each_drop ((s.take src.len).drop src.pos) hd hdpos hdlen hd32
  rw [hsrc] at hdrop
  have hbd : bb_bytes_left dest = dest.len - dest.pos :=
    bb_bytes_left_eq dest hdpos (by simp only [UINT32_MOD, SIZE_MOD] at hd32 ⊢; omega)
  have hbs : bb_bytes_left src = src.len - src.pos :=
    bb_bytes_left_eq src hspos (by simp only [UINT32_MOD, SIZE_MOD] at hs32 ⊢; omega)
  rw [hbd, hbs]
  refine ⟨_, _, ?_, hdrop, ?_, rfl, block_update_same _ (block_lt hd)⟩
  · unfold bb_put_bb
    rw [heq, hdrop]
  · rw [block_update_ne _ hne, hs]

/-- Witness of C13: a 4-byte buffer at cursor 1 receives the bytes of a 6-byte buffer from
its cursor 2 on; three of the four fit. -/
theorem bb_put_bb_spec_witness :
    ∃ m1 dest1, bb_put_bb 7 [some [0, 0, 0, 0], some [1, 2, 3, 4, 5, 6]]
        { pos := 1, wrapped := false, len := 4, buf := 0 }
        { pos := 2, wrapped := false, len := 6, buf := 1 } = .ok (m1, dest1) ∧
      put_each [some [0, 0, 0, 0], some [1, 2, 3, 4, 5, 6]]
        { pos := 1, wrapped := false, len := 4, buf := 0 }
        (([1, 2, 3, 4, 5, 6].take 6).drop 2) = .ok (m1, dest1) ∧
      block m1 1 = some [1, 2, 3, 4, 5, 6] ∧
      dest1 = { pos := 1 + min (bb_bytes_left { pos := 1, wrapped := false, len := 4, buf := 0 })
                  (bb_bytes_left { pos := 2, wrapped := false, len := 6, buf := 1 }),
                wrapped := false, len := 4, buf := 0 } ∧
      block m1 0 = some ([0, 0, 0, 0].take 1
        ++ ((([1, 2, 3, 4, 5, 6].take 6).drop 2).take
              (min (bb_bytes_left { pos := 1, wrapped := false, len := 4, buf := 0 })
                (bb_bytes_left { pos := 2, wrapped := false, len := 6, buf := 1 }))).map
            (· % 256)
        ++ [0, 0, 0, 0].drop
            (1 + min (bb_bytes_left { pos := 1, wrapped := false, len := 4, buf := 0 })
              (bb_bytes_left { pos := 2, wrapped := false, len := 6, buf := 1 }))) :=
  bb_put_bb_spec [some [0, 0, 0, 0], some [1, 2, 3, 4, 5, 6]]
    { pos := 1, wrapped := false, len := 4, buf := 0 }
    { pos := 2, wrapped := false, len := 6, buf := 1 } [0, 0, 0, 0] [1, 2, 3, 4, 5, 6] 7
    rfl rfl (by decide) (by decide) (by decide) (by decide) (by decide) (by decide)
    (by decide) (by decide)

/-- Counterexample to C13 as stated, in three parts.  (a) Two distinct buffers wrapped
around the same block `[1,2,3,4]`, `dest` at cursor 1 and `src` at cursor 0: the call
turns the block into `[1,1,1,1]`, so the contents of `src` change and `dest` does not
receive `1,2,3`.  (b) With `src` a zeroed buffer of capacity `2 ^ 32` and `dest` an empty
buffer, the call returns no result, whatever the fuel.  (c) With the cursor of `dest`
past its capacity nothing is written, although `min` of the two `bb_bytes_left` is 1.
(d) With `dest` of capacity `2 ^ 32` at cursor `2 ^ 32 - 1` and two bytes in `src`, the
cursor of `dest` ends at 1 instead of two bytes further. -/
theorem bb_put_bb_counterexample :
    bb_put_bb 5 [some [1, 2, 3, 4]] { pos := 1, wrapped := true, len := 4, buf := 0 }
        { pos := 0, wrapped := true, len := 4, buf := 0 }
      = .ok ([some [1, 1, 1, 1]], { pos := 4, wrapped := true, len := 4, buf := 0 }) ∧
    (¬ ∃ fuel r, bb_put_bb fuel (bb_new (bb_new [] UINT32_MOD).1 0).1
        (bb_new (bb_new [] UINT32_MOD).1 0).2 (bb_new [] UINT32_MOD).2 = .ok r) ∧
    (bb_put_bb 2 [some [0], some [7]] { pos := 2, wrapped := false, len := 1, buf := 0 }
        { pos := 0, wrapped := false, len := 1, buf := 1 }
      = .ok ([some [0], some [7]], { pos := 2, wrapped := false, len := 1, buf := 0 }) ∧
     min (bb_bytes_left { pos := 2, wrapped := false, len := 1, buf := 0 })
        (bb_bytes_left { pos := 0, wrapped := false, len := 1, buf := 1 }) = 1) ∧
    (∃ m1 dest1, bb_put_bb 3 [some (List.replicate UINT32_MOD 0), some [7, 8]]
        { pos := UINT32_MOD - 1, wrapped := false, len := UINT32_MOD, buf := 0 }
        { pos := 0, wrapped := false, len := 2, buf := 1 } = .ok (m1, dest1) ∧
      dest1.pos = 1) := by
  refine ⟨rfl, ?_, ⟨rfl, by decide⟩, ?_⟩
  swap
  · have hs2 : block [some (List.replicate UINT32_MOD 0), some [7, 8]]
        ({ pos := 0, wrapped := false, len := 2, buf := 1 } : byte_buffer).buf
        = some [7, 8] := rfl
    have hd2 : block [some (List.replicate UINT32_MOD 0), some [7, 8]]
        ({ pos := UINT32_MOD - 1, wrapped := false, len := UINT32_MOD, buf := 0 }
          : byte_buffer).buf = some (List.replicate UINT32_MOD 0) := rfl
    have heq := @bb_put_bb_loop_eq { pos := 0, wrapped := false, len := 2, buf := 1 } [7, 8]
      (by decide) (by decide) 3 [some (List.replicate UINT32_MOD 0), some [7, 8]]
      { pos := UINT32_MOD - 1, wrapped := false, len := UINT32_MOD, buf := 0 } 0 hs2
      (by decide) (by decide)
    obtain ⟨m1, blk1, h1, _, _⟩ := put_each_wrap [7, 8]
      [some (List.replicate UINT32_MOD 0), some [7, 8]]
      { pos := UINT32_MOD - 1, wrapped := false, len := UINT32_MOD, buf := 0 } _ hd2
      (by rw [List.length_replicate]) (Nat.le_refl _) (by decide)
    exact ⟨m1, _, heq.trans h1, rfl⟩
  have hs : block (bb_new (bb_new [] UINT32_MOD).1 0).1 (bb_new [] UINT32_MOD).2.buf
      = some (List.replicate UINT32_MOD 0) := rfl
  have hlen : (bb_new [] UINT32_MOD).2.len ≤ (List.replicate UINT32_MOD 0).length := by
    rw [List.length_replicate]
    exact Nat.le_refl _
  rintro ⟨fuel, r, hr⟩
  have hdiv := @bb_put_bb_loop_diverges (bb_new [] UINT32_MOD).2 _ _
    (bb_new (bb_new [] UINT32_MOD).1 0).2 hs hlen (Nat.le_refl _) (Nat.le_refl _) fuel 0
    (by decide)
  have hcon : Except.error Fault.out_of_fuel = Except.ok r := hdiv.symm.trans hr
  cases hcon

/-! ## Loading a file -/

theorem bb_new_from_file_loaded (m : Memory) (junk : Nat → Nat) (f : file_status) (size : Nat)
    (hstat : f.st_size = some size) (hopen : f.fopen_ok = true)
    (hfull : size ≤ f.data.length) :
    ∃ m1, bb_new_from_file m junk f
        = .ok (m1, some { pos := 0, wrapped := true, len := size, buf := m.length }) ∧
      block m1 m.length = some (f.data.take size) ∧
      ∀ q, q < m.length → block m1 q = block m q := by
  have hmin : min size f.data.length = size := by omega
  have hd : block (m ++ [some ((List.range size).map junk)]) m.length
      = some ((List.range size).map junk) := block_append_new m _
  have htl : (f.data.take size).length = size := by
    rw [List.length_take]
    omega
  have hst := store_bytes_ok 0 (f.data.take size) hd (by simp [htl])
  have hnil : ((List.range size).map junk).drop (0 + (f.data.take size).length) = [] :=
    List.drop_eq_nil_of_le (by simp [htl])
  rw [hnil] at hst
  simp only [List.take_zero, List.nil_append, List.append_nil] at hst
  refine ⟨update (m ++ [some ((List.range size).map junk)]) m.length (f.data.take size),
    ?_, block_update_same _ (by simp), ?_⟩
  · simp only [bb_new_from_file, hstat, hopen, malloc, fread, hmin, hst, bb_new_wrap]
    simp
  · intro q hq
    rw [block_update_ne _ (by omega), block_append_old _ hq]

theorem bb_new_from_file_fails (m : Memory) (junk : Nat → Nat) (f : file_status) :
    (f.st_size = none → bb_new_from_file m junk f = .ok (m, none)) ∧
    (f.fopen_ok = false → ∃ m1, bb_new_from_file m junk f = .ok (m1, none)) ∧
    (∀ size, f.st_size = some size → f.data.length < size →
      ∃ m1, bb_new_from_file m junk f = .ok (m1, none)) := by
  refine ⟨?_, ?_, ?_⟩
  · intro h
    simp [bb_new_from_file, h]
  · intro h
    cases hs : f.st_size with
    | none => exact ⟨m, by simp [bb_new_from_file, hs]⟩
    | some size => exact ⟨m, by simp [bb_new_from_file, hs, h]⟩
  · intro size hs hshort
    cases ho : f.fopen_ok with
    | false => exact ⟨m, by simp [bb_new_from_file, hs, ho]⟩
    | true =>
      have hmin : min size f.data.length = f.data.length := by omega
      have hd : block (m ++ [some ((List.range size).map junk)]) m.length
          = some ((List.range size).map junk) := block_append_new m _
      have hst := store_bytes_ok 0 (f.data.take f.data.length) hd (by simp; omega)
      have hfree := free_ok (block_update_same
        (List.take 0 ((List.range size).map junk) ++ f.data.take f.data.length
          ++ List.drop (0 + (f.data.take f.data.length).length) ((List.range size).map junk))
        (by simp : m.length < (m ++ [some ((List.range size).map junk)]).length))
      have hne : f.data.length ≠ size := by omega
      simp only [bb_new_from_file, hs, ho, malloc, fread, hmin, hst, hfree]
      simp [hne]

/-- C14: the buffer `bb_new_from_file` returns is made by `bb_new_wrap`, so it is flagged
as wrapped although its storage was allocated by the call itself.  For a 3-byte file the
buffer has cursor 0, capacity 3 and the file's bytes, but `wrapped` is true, `bb_resize`
on it returns false, and `bb_free` leaves the storage allocated; an owned buffer with the
same storage is resized and its storage is freed.  The short-read path of the same call
does free the block. -/
theorem bb_new_from_file_is_wrapped :
    bb_new_from_file [] (fun _ => 0xCD) { st_size := some 3, fopen_ok := true, data := [1, 2, 3] }
      = .ok ([some [1, 2, 3]], some { pos := 0, wrapped := true, len := 3, buf := 0 }) ∧
    bb_resize [some [1, 2, 3]] { pos := 0, wrapped := true, len := 3, buf := 0 } 5
      = .ok ([some [1, 2, 3]], { pos := 0, wrapped := true, len := 3, buf := 0 }, false) ∧
    bb_free [some [1, 2, 3]] { pos := 0, wrapped := true, len := 3, buf := 0 }
      = .ok [some [1, 2, 3]] ∧
    bb_resize [some [1, 2, 3]] { pos := 0, wrapped := false, len := 3, buf := 0 } 5
      = .ok ([none, some [1, 2, 3, 0, 0]],
          { pos := 0, wrapped := false, len := 5, buf := 1 }, true) ∧
    bb_free [some [1, 2, 3]] { pos := 0, wrapped := false, len := 3, buf := 0 }
      = .ok [none] ∧
    bb_new_from_file [] (fun _ => 0xCD) { st_size := some 4, fopen_ok := true, data := [1, 2, 3] }
      = .ok ([none], none) :=
  ⟨rfl, rfl, rfl, rfl, rfl, rfl⟩

/-! ## Relative get of a 32-bit integer -/

theorem take_drop_succ (l : List Nat) {i : Nat} (n : Nat) (hi : i < l.length) :
    (l.drop i).take (n + 1) = l.getD i 0 :: (l.drop (i + 1)).take n := by
  rw [List.drop_eq_getElem_cons hi, List.take_succ_cons, List.getD_eq_getElem?_getD,
    List.getElem?_eq_getElem hi]
  rfl

theorem take_drop_four (l : List Nat) {i : Nat} (hi : i + 4 ≤ l.length) :
    (l.drop i).take 4
      = [l.getD i 0, l.getD (i + 1) 0, l.getD (i + 2) 0, l.getD (i + 3) 0] := by
  rw [take_drop_succ l 3 (by omega), take_drop_succ l 2 (by omega),
    take_drop_succ l 1 (by omega), take_drop_succ l 0 (by omega)]
  simp

theorem get_uint_ok {w : Nat} {o : ByteOrder} {m : Memory} {bb : byte_buffer} {blk : List Nat}
    (hblk : block m bb.buf = some blk) (hroom : bb.pos + w ≤ blk.length) :
    get_uint w o m bb = .ok (of_bytes o ((blk.drop bb.pos).take w),
      { bb with pos := (bb.pos + w) % UINT32_MOD }) := by
  simp only [get_uint, load_bytes_ok bb.pos w hblk hroom]

/-- C15 (amended): on a buffer with cursor `c`, `c + 4 ≤ len` within its live storage
and `c + 4 < 2 ^ 32`, `bb_get_int` returns the value whose object representation is the
four bytes `b[c], b[c+1], b[c+2], b[c+3]` (least significant first on a little-endian
host, most significant first on a big-endian one) and the buffer with cursor `c + 4` and
every other field as before; the call only reads memory. -/
theorem bb_get_int_spec (o : ByteOrder) (m : Memory) (bb : byte_buffer) (blk : List Nat)
    (hblk : block m bb.buf = some blk) (hlen : bb.len ≤ blk.length)
    (hroom : bb.pos + 4 ≤ bb.len) (h32 : bb.pos + 4 < UINT32_MOD) :
    bb_get_int o m bb
      = .ok (of_bytes o [blk.getD bb.pos 0, blk.getD (bb.pos + 1) 0,
          blk.getD (bb.pos + 2) 0, blk.getD (bb.pos + 3) 0], { bb with pos := bb.pos + 4 }) ∧
    of_bytes .little [blk.getD bb.pos 0, blk.getD (bb.pos + 1) 0,
        blk.getD (bb.pos + 2) 0, blk.getD (bb.pos + 3) 0]
      = blk.getD bb.pos 0 + 256 * blk.getD (bb.pos + 1) 0
        + 256 ^ 2 * blk.getD (bb.pos + 2) 0 + 256 ^ 3 * blk.getD (bb.pos + 3) 0 ∧
    of_bytes .big [blk.getD bb.pos 0, blk.getD (bb.pos + 1) 0,
        blk.getD (bb.pos + 2) 0, blk.getD (bb.pos + 3) 0]
      = blk.getD (bb.pos + 3) 0 + 256 * blk.getD (bb.pos + 2) 0
        + 256 ^ 2 * blk.getD (bb.pos + 1) 0 + 256 ^ 3 * blk.getD bb.pos 0 := by
  refine ⟨?_, ?_, ?_⟩
  · have hl := load_bytes_ok bb.pos 4 hblk (by omega)
    rw [take_drop_four blk (by omega)] at hl
    simp only [bb_get_int, get_uint, hl, Nat.mod_eq_of_lt h32]
  · simp only [of_bytes, of_bytes_le]
    omega
  · simp only [of_bytes, of_bytes_le, List.reverse_cons, List.reverse_nil, List.nil_append,
      List.cons_append]
    omega

/-- Witness of C15: `bb_new_copy` of the bytes `01 02 03 04`, then `bb_get_int` on a
little-endian host returns `0x04030201` and `bb_bytes_left` becomes 0. -/
theorem bb_get_int_spec_witness :
    bb_new_copy [some [0x01, 0x02, 0x03, 0x04]] (fun _ => 0xCD) 0 4
      = .ok ([some [0x01, 0x02, 0x03, 0x04], some [0x01, 0x02, 0x03, 0x04]],
          { pos := 0, wrapped := false, len := 4, buf := 1 }) ∧
    bb_get_int .little [some [0x01, 0x02, 0x03, 0x04], some [0x01, 0x02, 0x03, 0x04]]
        { pos := 0, wrapped := false, len := 4, buf := 1 }
      = .ok (0x04030201, { pos := 4, wrapped := false, len := 4, buf := 1 }) ∧
    bb_bytes_left { pos := 4, wrapped := false, len := 4, buf := 1 } = 0 :=
  ⟨rfl,
   (bb_get_int_spec .little [some [0x01, 0x02, 0x03, 0x04], some [0x01, 0x02, 0x03, 0x04]]
      { pos := 0, wrapped := false, len := 4, buf := 1 } [0x01, 0x02, 0x03, 0x04]
      rfl (by decide) (by decide) (by decide)).1,
   by decide⟩

/-- Counterexample to C15 as stated: on a zeroed buffer of capacity `2 ^ 32` skipped to
cursor `c = 2 ^ 32 - 4`, so that `c + 4 ≤ len`, `bb_get_int` returns a value but leaves
the cursor at 0, not at `c + 4`. -/
theorem bb_get_int_counterexample :
    (bb_skip (bb_new [] UINT32_MOD).2 (UINT32_MOD - 4)).pos + 4
      ≤ (bb_skip (bb_new [] UINT32_MOD).2 (UINT32_MOD - 4)).len ∧
    ∃ v bb1, bb_get_int .little (bb_new [] UINT32_MOD).1
        (bb_skip (bb_new [] UINT32_MOD).2 (UINT32_MOD - 4)) = .ok (v, bb1) ∧
      bb1.pos = 0 ∧
      bb1.pos ≠ (bb_skip (bb_new [] UINT32_MOD).2 (UINT32_MOD - 4)).pos + 4 := by
  have hblk : block (bb_new [] UINT32_MOD).1
      (bb_skip (bb_new [] UINT32_MOD).2 (UINT32_MOD - 4)).buf
      = some (List.replicate UINT32_MOD 0) := rfl
  have hget := @get_uint_ok 4 .little (bb_new [] UINT32_MOD).1
    (bb_skip (bb_new [] UINT32_MOD).2 (UINT32_MOD - 4)) _ hblk
    (by rw [List.length_replicate]; decide)
  exact ⟨by decide, _, _, hget, by decide, by decide⟩

/-! ## Absolute puts and gets -/

/-- C16: the fixed-width absolute puts have no capacity guard.  On a 4-byte buffer wrapped
around a 16-byte array, `bb_put_short_at`, `bb_put_int_at` and `bb_put_long_at` at index 4
(the capacity) and at index 6 write into the array past the capacity, whereas `bb_put_at`
at the same index is dropped.  On an owned 4-byte buffer the same three calls store
outside the allocation. -/
theorem fixed_width_put_at_not_dropped :
    bb_put_at [some (List.replicate 16 0)] (bb_new_wrap 0 4) 0xAA 4
      = .ok ([some (List.replicate 16 0)], bb_new_wrap 0 4) ∧
    bb_put_short_at .little [some (List.replicate 16 0)] (bb_new_wrap 0 4) 0xAABB 4
      = .ok ([some [0, 0, 0, 0, 0xBB, 0xAA, 0, 0, 0, 0, 0, 0, 0, 0, 0, 0]], bb_new_wrap 0 4) ∧
    bb_put_int_at .little [some (List.replicate 16 0)] (bb_new_wrap 0 4) 0xAABBCCDD 4
      = .ok ([some [0, 0, 0, 0, 0xDD, 0xCC, 0xBB, 0xAA, 0, 0, 0, 0, 0, 0, 0, 0]],
          bb_new_wrap 0 4) ∧
    bb_put_long_at .little [some (List.replicate 16 0)] (bb_new_wrap 0 4) 0x1122334455667788 4
      = .ok ([some [0, 0, 0, 0, 0x88, 0x77, 0x66, 0x55, 0x44, 0x33, 0x22, 0x11, 0, 0, 0, 0]],
          bb_new_wrap 0 4) ∧
    bb_put_int_at .little [some (List.replicate 16 0)] (bb_new_wrap 0 4) 0xAABBCCDD 6
      = .ok ([some [0, 0, 0, 0, 0, 0, 0xDD, 0xCC, 0xBB, 0xAA, 0, 0, 0, 0, 0, 0]],
          bb_new_wrap 0 4) ∧
    bb_put_short_at .little (bb_new [] 4).1 (bb_new [] 4).2 0xAABB 4 = .error .out_of_bounds ∧
    bb_put_int_at .little (bb_new [] 4).1 (bb_new [] 4).2 0xAABBCCDD 4
      = .error .out_of_bounds ∧
    bb_put_long_at .little (bb_new [] 4).1 (bb_new [] 4).2 0x1122334455667788 4
      = .error .out_of_bounds :=
  ⟨rfl, rfl, rfl, rfl, rfl, rfl, rfl, rfl⟩

theorem bb_put_at_dropped (m : Memory) (bb : byte_buffer) (v i : Nat) (h : bb.len ≤ i) :
    bb_put_at m bb v i = .ok (m, bb) := by
  simp [bb_put_at, h]

theorem bb_put_at_ok {m : Memory} {bb : byte_buffer} {blk : List Nat} (v : Nat) {i : Nat}
    (hblk : block m bb.buf = some blk) (hi : i < bb.len) (hlen : bb.len ≤ blk.length) :
    bb_put_at m bb v i = .ok (update m bb.buf (blk.set i (v % 256)), bb) := by
  have h1 : ¬ i ≥ bb.len := by omega
  simp [bb_put_at, h1, store_ok v hblk (by omega : i < blk.length)]

/-- C17: on a buffer whose storage `blk` is live and holds at least `len` bytes, for a
byte `v` and an index `i < len`, `bb_put_at` succeeds without changing any field of the
buffer (cursor and capacity included) or any other block, the storage becoming `blk`
with `v` at index `i`; afterwards `bb_get_at` at `i`
returns `v`, and `bb_get_at` at any other index within the storage returns the byte that
was there before.  For an index `i ≥ len`, `bb_put_at` leaves memory and buffer as they
were.  Whenever `bb_get_at` returns, it returns the buffer it was given, cursor included. -/
theorem bb_put_at_get_at (m : Memory) (bb : byte_buffer) (blk : List Nat) (v i : Nat)
    (hblk : block m bb.buf = some blk) (hlen : bb.len ≤ blk.length) (hv : v < 256) :
    (i < bb.len →
      ∃ m1, bb_put_at m bb v i = .ok (m1, bb) ∧
        block m1 bb.buf = some (blk.set i v) ∧
        bb_get_at m1 bb i = .ok (v, bb) ∧
        (∀ j, j ≠ i → j < blk.length → bb_get_at m1 bb j = .ok (blk.getD j 0, bb) ∧
          bb_get_at m bb j = .ok (blk.getD j 0, bb)) ∧
        (∀ q, q ≠ bb.buf → block m1 q = block m q)) ∧
    (bb.len ≤ i → bb_put_at m bb v i = .ok (m, bb)) ∧
    (∀ m0 j x bb1, bb_get_at m0 bb j = .ok (x, bb1) → bb1 = bb) := by
  refine ⟨?_, bb_put_at_dropped m bb v i, ?_⟩
  · intro hi
    have hb1 := block_update_same (blk.set i (v % 256)) (block_lt hblk)
    refine ⟨_, bb_put_at_ok v hblk hi hlen, ?_, ?_, ?_, ?_⟩
    · rw [hb1, Nat.mod_eq_of_lt hv]
    · have hl1 : load (update m bb.buf (blk.set i (v % 256))) bb.buf i
          = .ok ((blk.set i (v % 256)).getD i 0) :=
        load_ok hb1 (by rw [List.length_set]; omega)
      have hi2 : i = i ∧ i < blk.length := ⟨rfl, by omega⟩
      unfold bb_get_at
      rw [hl1, getD_set, if_pos hi2, Nat.mod_eq_of_lt hv]
    · intro j hj hjl
      have hl1 : load (update m bb.buf (blk.set i (v % 256))) bb.buf j
          = .ok ((blk.set i (v % 256)).getD j 0) :=
        load_ok hb1 (by rw [List.length_set]; exact hjl)
      have hij : ¬ (i = j ∧ i < blk.length) := fun h => hj h.1.symm
      constructor
      · unfold bb_get_at
        rw [hl1, getD_set, if_neg hij]
      · simp only [bb_get_at, load_ok hblk hjl]
    · intro q hq
      exact block_update_ne _ (Ne.symm hq)
  · intro m0 j x bb1 h
    unfold bb_get_at at h
    split at h
    · simp only [Except.ok.injEq, Prod.mk.injEq] at h
      exact h.2.symm
    · simp at h

/-- Witness of C17: a 3-byte buffer with cursor 1; index 1 is written, index 5 is not. -/
theorem bb_put_at_get_at_witness :
    (∃ m1, bb_put_at [some [1, 2, 3]] { pos := 1, wrapped := false, len := 3, buf := 0 } 9 1
        = .ok (m1, { pos := 1, wrapped := false, len := 3, buf := 0 }) ∧
      block m1 0 = some ([1, 2, 3].set 1 9) ∧
      bb_get_at m1 { pos := 1, wrapped := false, len := 3, buf := 0 } 1
        = .ok (9, { pos := 1, wrapped := false, len := 3, buf := 0 }) ∧
      (∀ j, j ≠ 1 → j < [1, 2, 3].length →
        bb_get_at m1 { pos := 1, wrapped := false, len := 3, buf := 0 } j
          = .ok ([1, 2, 3].getD j 0, { pos := 1, wrapped := false, len := 3, buf := 0 }) ∧
        bb_get_at [some [1, 2, 3]] { pos := 1, wrapped := false, len := 3, buf := 0 } j
          = .ok ([1, 2, 3].getD j 0, { pos := 1, wrapped := false, len := 3, buf := 0 })) ∧
      (∀ q, q ≠ 0 → block m1 q = block [some [1, 2, 3]] q)) ∧
    bb_put_at [some [1, 2, 3]] { pos := 1, wrapped := false, len := 3, buf := 0 } 9 5
      = .ok ([some [1, 2, 3]], { pos := 1, wrapped := false, len := 3, buf := 0 }) :=
  ⟨(bb_put_at_get_at [some [1, 2, 3]] { pos := 1, wrapped := false, len := 3, buf := 0 }
      [1, 2, 3] 9 1 rfl (by decide) (by decide)).1 (by decide),
   (bb_put_at_get_at [some [1, 2, 3]] { pos := 1, wrapped := false, len := 3, buf := 0 }
      [1, 2, 3] 9 5 rfl (by decide) (by decide)).2.1 (by decide)⟩
/-! ## Skipping and the bytes left -/

/-- C18 (amended): for a buffer and an `n` with `pos + n ≤ len` and `pos + n < 2 ^ 32`
(`len` being a `size_t`), `bb_bytes_left` is `len - pos`, `bb_skip` sets the cursor to
`pos + n` and keeps every other field, and afterwards `bb_bytes_left` is its previous
value minus `n`.  Neither call has access to memory, so the contents are unchanged. -/
theorem bb_skip_bytes_left (bb : byte_buffer) (n : Nat) (hroom : bb.pos + n ≤ bb.len)
    (h32 : bb.pos + n < UINT32_MOD) (hsize : bb.len < SIZE_MOD) :
    bb_bytes_left bb = bb.len - bb.pos ∧
    bb_skip bb n = { bb with pos := bb.pos + n } ∧
    bb_bytes_left (bb_skip bb n) = bb_bytes_left bb - n ∧
    bb_bytes_left (bb_skip bb n) = bb.len - (bb.pos + n) := by
  have hskip : bb_skip bb n = { bb with pos := bb.pos + n } := by
    simp only [bb_skip, Nat.mod_eq_of_lt h32]
  have h1 := bb_bytes_left_eq bb (by omega) hsize
  have h2 := bb_bytes_left_eq { bb with pos := bb.pos + n } hroom hsize
  simp only at h2
  refine ⟨h1, hskip, ?_, ?_⟩
  · rw [hskip, h2, h1]
    omega
  · rw [hskip, h2]

/-- Witness of C18: skipping 3 bytes of a 10-byte buffer whose cursor is 2. -/
theorem bb_skip_bytes_left_witness :
    bb_bytes_left { pos := 2, wrapped := false, len := 10, buf := 0 } = 10 - 2 ∧
    bb_skip { pos := 2, wrapped := false, len := 10, buf := 0 } 3
      = { pos := 2 + 3, wrapped := false, len := 10, buf := 0 } ∧
    bb_bytes_left (bb_skip { pos := 2, wrapped := false, len := 10, buf := 0 } 3)
      = bb_bytes_left { pos := 2, wrapped := false, len := 10, buf := 0 } - 3 ∧
    bb_bytes_left (bb_skip { pos := 2, wrapped := false, len := 10, buf := 0 } 3)
      = 10 - (2 + 3) :=
  bb_skip_bytes_left { pos := 2, wrapped := false, len := 10, buf := 0 } 3
    (by decide) (by decide) (by decide)

/-- Counterexample to C18 as stated: on a buffer of capacity `2 ^ 32` with cursor 0,
skipping `n = 2 ^ 32` satisfies `pos + n ≤ len`, but the 32-bit cursor is 0 again, and
`bb_bytes_left` is still `2 ^ 32` instead of its previous value minus `n`. -/
theorem bb_skip_counterexample :
    (bb_new [] UINT32_MOD).2.pos + UINT32_MOD ≤ (bb_new [] UINT32_MOD).2.len ∧
    (bb_skip (bb_new [] UINT32_MOD).2 UINT32_MOD).pos = 0 ∧
    (bb_skip (bb_new [] UINT32_MOD).2 UINT32_MOD).pos
      ≠ (bb_new [] UINT32_MOD).2.pos + UINT32_MOD ∧
    bb_bytes_left (bb_skip (bb_new [] UINT32_MOD).2 UINT32_MOD) = UINT32_MOD ∧
    bb_bytes_left (bb_skip (bb_new [] UINT32_MOD).2 UINT32_MOD)
      ≠ bb_bytes_left (bb_new [] UINT32_MOD).2 - UINT32_MOD := by
  refine ⟨by decide, by decide, by decide, by decide, by decide⟩

/-! ## The cursor across the interface -/

theorem bb_put_pos {m m1 : Memory} {bb bb1 : byte_buffer} {v : Nat}
    (h : bb_put m bb v = .ok (m1, bb1)) :
    bb1.pos = bb.pos ∨ (bb.pos < bb.len ∧ bb1.pos = (bb.pos + 1) % UINT32_MOD) := by
  unfold bb_put at h
  split at h
  · simp only [Except.ok.injEq, Prod.mk.injEq] at h
    rw [← h.2]
    exact Or.inl rfl
  · next hlt =>
    split at h
    · simp only [Except.ok.injEq, Prod.mk.injEq] at h
      rw [← h.2]
      exact Or.inr ⟨by omega, rfl⟩
    · simp at h

theorem bb_put_bound {m m1 : Memory} {bb bb1 : byte_buffer} {v : Nat}
    (h : bb_put m bb v = .ok (m1, bb1)) (hinv : bb.pos ≤ bb.len) : bb1.pos ≤ bb1.len := by
  have hlen := (bb_put_frame h).2.1
  rcases bb_put_pos h with hp | ⟨hlt, hp⟩
  · omega
  · have := Nat.mod_le (bb.pos + 1) UINT32_MOD
    omega

theorem bb_put_mono {m m1 : Memory} {bb bb1 : byte_buffer} {v : Nat}
    (h : bb_put m bb v = .ok (m1, bb1)) (h32 : bb.len < UINT32_MOD) : bb.pos ≤ bb1.pos := by
  rcases bb_put_pos h with hp | ⟨hlt, hp⟩
  · omega
  · rw [hp, Nat.mod_eq_of_lt (by omega)]
    omega

theorem bb_put_bytes_loop_inv (P : byte_buffer → Prop)
    (hP : ∀ m bb v m1 bb1, P bb → bb_put m bb v = .ok (m1, bb1) → P bb1)
    (arr len fuel : Nat) :
    ∀ (m : Memory) (bb : byte_buffer) (i : Nat) (m1 : Memory) (bb1 : byte_buffer), P bb →
      bb_put_bytes_loop arr len fuel m bb i = .ok (m1, bb1) → P bb1 := by
  induction fuel with
  | zero =>
    intro m bb i m1 bb1 _ h
    simp [bb_put_bytes_loop] at h
  | succ fuel ih =>
    intro m bb i m1 bb1 hp h
    unfold bb_put_bytes_loop at h
    split at h
    · split at h
      · simp at h
      · split at h
        · simp at h
        · next m2 bb2 hput => exact ih _ _ _ _ _ (hP _ _ _ _ _ hp hput) h
    · simp only [Except.ok.injEq, Prod.mk.injEq] at h
      rw [← h.2]
      exact hp

theorem bb_put_bb_loop_inv (P : byte_buffer → Prop)
    (hP : ∀ m bb v m1 bb1, P bb → bb_put m bb v = .ok (m1, bb1) → P bb1)
    (src : byte_buffer) (fuel : Nat) :
    ∀ (m : Memory) (dest : byte_buffer) (i : Nat) (m1 : Memory) (dest1 : byte_buffer), P dest →
      bb_put_bb_loop src fuel m dest i = .ok (m1, dest1) → P dest1 := by
  induction fuel with
  | zero =>
    intro m dest i m1 dest1 _ h
    simp [bb_put_bb_loop] at h
  | succ fuel ih =>
    intro m dest i m1 dest1 hp h
    unfold bb_put_bb_loop at h
    split at h
    · split at h
      · simp at h
      · split at h
        · simp at h
        · next m2 bb2 hput => exact ih _ _ _ _ _ (hP _ _ _ _ _ hp hput) h
    · simp only [Except.ok.injEq, Prod.mk.injEq] at h
      rw [← h.2]
      exact hp

theorem bb_replace_loop_struct (bb : byte_buffer) (key rep : Nat) (first : Bool) (fuel : Nat) :
    ∀ (m : Memory) (i : Nat) (m1 : Memory) (bb1 : byte_buffer),
      bb_replace_loop bb key rep first fuel m i = .ok (m1, bb1) → bb1 = bb := by
  induction fuel with
  | zero =>
    intro m i m1 bb1 h
    simp [bb_replace_loop] at h
  | succ fuel ih =>
    intro m i m1 bb1 h
    unfold bb_replace_loop at h
    split at h
    · split at h
      · simp at h
      · split at h
        · split at h
          · simp at h
          · split at h
            · simp only [Except.ok.injEq, Prod.mk.injEq] at h
              exact h.2.symm
            · exact ih _ _ _ _ h
        · exact ih _ _ _ _ h
    · simp only [Except.ok.injEq, Prod.mk.injEq] at h
      exact h.2.symm

theorem bb_put_at_struct {m m1 : Memory} {bb bb1 : byte_buffer} {v i : Nat}
    (h : bb_put_at m bb v i = .ok (m1, bb1)) : bb1 = bb := by
  unfold bb_put_at at h
  split at h
  · simp only [Except.ok.injEq, Prod.mk.injEq] at h
    exact h.2.symm
  · split at h
    · simp only [Except.ok.injEq, Prod.mk.injEq] at h
      exact h.2.symm
    · simp at h

theorem bb_put_bytes_at_loop_struct (arr index fuel : Nat) :
    ∀ (m : Memory) (bb : byte_buffer) (i : Nat) (m1 : Memory) (bb1 : byte_buffer),
      bb_put_bytes_at_loop arr index fuel m bb i = .ok (m1, bb1) → bb1 = bb := by
  induction fuel with
  | zero =>
    intro m bb i m1 bb1 h
    simp [bb_put_bytes_at_loop] at h
  | succ fuel ih =>
    intro m bb i m1 bb1 h
    unfold bb_put_bytes_at_loop at h
    split at h
    · split at h
      · simp at h
      · split at h
        · simp at h
        · next m2 bb2 hput =>
          have h2 := ih _ _ _ _ _ h
          rw [h2, bb_put_at_struct hput]
    · simp only [Except.ok.injEq, Prod.mk.injEq] at h
      exact h.2.symm

theorem bb_get_struct {m : Memory} {bb bb1 : byte_buffer} {x : Nat}
    (h : bb_get m bb = .ok (x, bb1)) :
    bb1 = { bb with pos := (bb.pos + 1) % UINT32_MOD } := by
  unfold bb_get at h
  split at h
  · simp only [Except.ok.injEq, Prod.mk.injEq] at h
    exact h.2.symm
  · simp at h

theorem bb_get_at_struct {m : Memory} {bb bb1 : byte_buffer} {x i : Nat}
    (h : bb_get_at m bb i = .ok (x, bb1)) : bb1 = bb := by
  unfold bb_get_at at h
  split at h
  · simp only [Except.ok.injEq, Prod.mk.injEq] at h
    exact h.2.symm
  · simp at h

theorem bb_get_bytes_in_loop_pos (dest n : Nat) :
    ∀ (m : Memory) (bb : byte_buffer) (i : Nat) (m1 : Memory) (bb1 : byte_buffer),
      bb_get_bytes_in_loop dest n m bb i = .ok (m1, bb1) →
      bb1 = { bb with pos := (bb.pos + n) % UINT32_MOD } ∨ (n = 0 ∧ bb1 = bb) := by
  induction n with
  | zero =>
    intro m bb i m1 bb1 h
    simp only [bb_get_bytes_in_loop, Except.ok.injEq, Prod.mk.injEq] at h
    exact Or.inr ⟨rfl, h.2.symm⟩
  | succ n ih =>
    intro m bb i m1 bb1 h
    unfold bb_get_bytes_in_loop at h
    split at h
    · simp at h
    · next x bb2 hget =>
      split at h
      · simp at h
      · have hb2 := bb_get_struct hget
        rcases ih _ _ _ _ _ h with h3 | ⟨h0, h3⟩
        · left
          rw [h3, hb2]
          simp only [Nat.mod_add_mod]
          have : bb.pos + 1 + n = bb.pos + (n + 1) := by omega
          rw [this]
        · left
          rw [h3, hb2, h0]

theorem bb_get_bytes_at_in_loop_struct (index dest n : Nat) :
    ∀ (m : Memory) (bb : byte_buffer) (i : Nat) (m1 : Memory) (bb1 : byte_buffer),
      bb_get_bytes_at_in_loop index dest n m bb i = .ok (m1, bb1) → bb1 = bb := by
  induction n with
  | zero =>
    intro m bb i m1 bb1 h
    simp only [bb_get_bytes_at_in_loop, Except.ok.injEq, Prod.mk.injEq] at h
    exact h.2.symm
  | succ n ih =>
    intro m bb i m1 bb1 h
    unfold bb_get_bytes_at_in_loop at h
    split at h
    · simp at h
    · next x bb2 hget =>
      split at h
      · simp at h
      · rw [ih _ _ _ _ _ h, bb_get_at_struct hget]
theorem put_uint_struct {w : Nat} {o : ByteOrder} {m m1 : Memory} {bb bb1 : byte_buffer}
    {v : Nat} (h : put_uint w o m bb v = .ok (m1, bb1)) :
    bb1 = { bb with pos := (bb.pos + w) % UINT32_MOD } := by
  unfold put_uint at h
  split at h
  · simp only [Except.ok.injEq, Prod.mk.injEq] at h
    exact h.2.symm
  · simp at h

theorem get_uint_struct {w : Nat} {o : ByteOrder} {m : Memory} {bb bb1 : byte_buffer}
    {x : Nat} (h : get_uint w o m bb = .ok (x, bb1)) :
    bb1 = { bb with pos := (bb.pos + w) % UINT32_MOD } := by
  unfold get_uint at h
  split at h
  · simp only [Except.ok.injEq, Prod.mk.injEq] at h
    exact h.2.symm
  · simp at h

theorem put_uint_at_struct {w : Nat} {o : ByteOrder} {m m1 : Memory} {bb bb1 : byte_buffer}
    {v i : Nat} (h : put_uint_at w o m bb v i = .ok (m1, bb1)) : bb1 = bb := by
  unfold put_uint_at at h
  split at h
  · simp only [Except.ok.injEq, Prod.mk.injEq] at h
    exact h.2.symm
  · simp at h

theorem bb_clear_struct {m m1 : Memory} {bb bb1 : byte_buffer}
    (h : bb_clear m bb = .ok (m1, bb1)) : bb1 = bb := by
  unfold bb_clear at h
  split at h
  · simp only [Except.ok.injEq, Prod.mk.injEq] at h
    exact h.2.symm
  · simp at h

theorem bb_get_bytes_struct {m m1 : Memory} {junk : Nat → Nat} {bb bb1 : byte_buffer}
    {len ret : Nat} (h : bb_get_bytes m junk bb len = .ok (m1, ret, bb1)) :
    bb1 = { bb with pos := (bb.pos + len) % UINT32_MOD } := by
  simp only [bb_get_bytes, malloc] at h
  split at h
  · simp only [Except.ok.injEq, Prod.mk.injEq] at h
    exact h.2.2.symm
  · simp at h

/-- C19 (amended): whenever an operation of the interface other than `bb_resize` returns,
the cursor it leaves is at least the cursor it found, provided the 32-bit cursor does not
wrap: `pos + n < 2 ^ 32` for `bb_skip`, `pos + 1 < 2 ^ 32` for `bb_get`,
`pos + w < 2 ^ 32` for a fixed-width relative get or put of `w` bytes (short, int, long,
float, double), `pos + len < 2 ^ 32` for `bb_get_bytes_in` and `bb_get_bytes`, and a
capacity below `2 ^ 32` for `bb_put`, `bb_put_bytes` and `bb_put_bb` (on `dest`).
`bb_clear`, `bb_replace`, and the absolute gets and puts return the buffer they were
given (`bb_peek` and the fixed-width absolute gets return a value only and have no
buffer to change). -/
theorem cursor_only_advances :
    (∀ bb n, bb.pos + n < UINT32_MOD → bb.pos ≤ (bb_skip bb n).pos) ∧
    (∀ m bb x bb1, bb_get m bb = .ok (x, bb1) → bb.pos + 1 < UINT32_MOD →
      bb.pos ≤ bb1.pos) ∧
    (∀ w o m bb x bb1, get_uint w o m bb = .ok (x, bb1) → bb.pos + w < UINT32_MOD →
      bb.pos ≤ bb1.pos) ∧
    (∀ w o m bb v m1 bb1, put_uint w o m bb v = .ok (m1, bb1) → bb.pos + w < UINT32_MOD →
      bb.pos ≤ bb1.pos) ∧
    (∀ m bb dest len m1 bb1, bb_get_bytes_in m bb dest len = .ok (m1, bb1) →
      bb.pos + len < UINT32_MOD → bb.pos ≤ bb1.pos) ∧
    (∀ m junk bb len m1 ret bb1, bb_get_bytes m junk bb len = .ok (m1, ret, bb1) →
      bb.pos + len < UINT32_MOD → bb.pos ≤ bb1.pos) ∧
    (∀ m bb v m1 bb1, bb_put m bb v = .ok (m1, bb1) → bb.len < UINT32_MOD →
      bb.pos ≤ bb1.pos) ∧
    (∀ fuel m bb arr len m1 bb1, bb_put_bytes fuel m bb arr len = .ok (m1, bb1) →
      bb.len < UINT32_MOD → bb.pos ≤ bb1.pos) ∧
    (∀ fuel m dest src m1 dest1, bb_put_bb fuel m dest src = .ok (m1, dest1) →
      dest.len < UINT32_MOD → dest.pos ≤ dest1.pos) ∧
    (∀ m bb m1 bb1, bb_clear m bb = .ok (m1, bb1) → bb1 = bb) ∧
    (∀ fuel m bb key rep start first m1 bb1,
      bb_replace fuel m bb key rep start first = .ok (m1, bb1) → bb1 = bb) ∧
    (∀ m bb i x bb1, bb_get_at m bb i = .ok (x, bb1) → bb1 = bb) ∧
    (∀ m bb index dest len m1 bb1,
      bb_get_bytes_at_in m bb index dest len = .ok (m1, bb1) → bb1 = bb) ∧
    (∀ m junk bb len index, (bb_get_bytes_at m junk bb len index).2.2 = bb) ∧
    (∀ m bb v i m1 bb1, bb_put_at m bb v i = .ok (m1, bb1) → bb1 = bb) ∧
    (∀ fuel m bb arr len index m1 bb1,
      bb_put_bytes_at fuel m bb arr len index = .ok (m1, bb1) → bb1 = bb) ∧
    (∀ w o m bb v i m1 bb1, put_uint_at w o m bb v i = .ok (m1, bb1) → bb1 = bb) := by
  refine ⟨?_, ?_, ?_, ?_, ?_, ?_, ?_, ?_, ?_, ?_, ?_, ?_, ?_, ?_, ?_, ?_, ?_⟩
  · intro bb n h
    simp only [bb_skip, Nat.mod_eq_of_lt h]
    omega
  · intro m bb x bb1 h h32
    rw [bb_get_struct h]
    simp only [Nat.mod_eq_of_lt h32]
    omega
  · intro w o m bb x bb1 h h32
    rw [get_uint_struct h]
    simp only [Nat.mod_eq_of_lt h32]
    omega
  · intro w o m bb v m1 bb1 h h32
    rw [put_uint_struct h]
    simp only [Nat.mod_eq_of_lt h32]
    omega
  · intro m bb dest len m1 bb1 h h32
    rcases bb_get_bytes_in_loop_pos dest len m bb 0 m1 bb1 h with h1 | ⟨_, h1⟩
    · rw [h1]
      simp only [Nat.mod_eq_of_lt h32]
      omega
    · rw [h1]
  · intro m junk bb len m1 ret bb1 h h32
    rw [bb_get_bytes_struct h]
    simp only [Nat.mod_eq_of_lt h32]
    omega
  · intro m bb v m1 bb1 h h32
    exact bb_put_mono h h32
  · intro fuel m bb arr len m1 bb1 h h32
    have hinv := bb_put_bytes_loop_inv
      (fun b => b.len = bb.len ∧ bb.pos ≤ b.pos)
      (fun m0 b v m2 b2 hb hput =>
        ⟨(bb_put_frame hput).2.1.trans hb.1,
         Nat.le_trans hb.2 (bb_put_mono hput (by rw [hb.1]; exact h32))⟩)
      arr len fuel m bb 0 m1 bb1 ⟨rfl, Nat.le_refl _⟩ h
    exact hinv.2
  · intro fuel m dest src m1 dest1 h h32
    have hinv := bb_put_bb_loop_inv
      (fun b => b.len = dest.len ∧ dest.pos ≤ b.pos)
      (fun m0 b v m2 b2 hb hput =>
        ⟨(bb_put_frame hput).2.1.trans hb.1,
         Nat.le_trans hb.2 (bb_put_mono hput (by rw [hb.1]; exact h32))⟩)
      src fuel m dest src.pos m1 dest1 ⟨rfl, Nat.le_refl _⟩ h
    exact hinv.2
  · intro m bb m1 bb1 h
    exact bb_clear_struct h
  · intro fuel m bb key rep start first m1 bb1 h
    exact bb_replace_loop_struct bb key rep first fuel m start m1 bb1 h
  · intro m bb i x bb1 h
    exact bb_get_at_struct h
  · intro m bb index dest len m1 bb1 h
    exact bb_get_bytes_at_in_loop_struct index dest len m bb 0 m1 bb1 h
  · intro m junk bb len index
    rfl
  · intro m bb v i m1 bb1 h
    exact bb_put_at_struct h
  · intro fuel m bb arr len index m1 bb1 h
    exact bb_put_bytes_at_loop_struct arr index fuel m bb index m1 bb1 h
  · intro w o m bb v i m1 bb1 h
    exact put_uint_at_struct h

/-- Witness of C19: a skip, a 32-bit get, a single-byte put, a bulk put and a
buffer-to-buffer put on small buffers; each returns and the cursor does not decrease. -/
theorem cursor_only_advances_witness :
    (2 ≤ (bb_skip { pos := 2, wrapped := false, len := 10, buf := 0 } 3).pos) ∧
    (bb_get_int .little [some [1, 2, 3, 4, 5]] { pos := 1, wrapped := false, len := 5, buf := 0 }
        = .ok (0x05040302, { pos := 5, wrapped := false, len := 5, buf := 0 }) ∧ 1 ≤ 5) ∧
    (bb_put [some [0, 0]] { pos := 1, wrapped := false, len := 2, buf := 0 } 7
        = .ok ([some [0, 7]], { pos := 2, wrapped := false, len := 2, buf := 0 }) ∧ 1 ≤ 2) ∧
    (bb_put_bytes 5 [some [0, 0, 0, 0], some [1, 2, 3, 4]]
        { pos := 0, wrapped := false, len := 4, buf := 0 } 1 4
        = .ok ([some [1, 3, 0, 0], some [1, 2, 3, 4]],
            { pos := 2, wrapped := false, len := 4, buf := 0 }) ∧ 0 ≤ 2) ∧
    (bb_put_bb 7 [some [0, 0, 0, 0], some [1, 2, 3, 4, 5, 6]]
        { pos := 1, wrapped := false, len := 4, buf := 0 }
        { pos := 2, wrapped := false, len := 6, buf := 1 }
        = .ok ([some [0, 3, 4, 5], some [1, 2, 3, 4, 5, 6]],
            { pos := 4, wrapped := false, len := 4, buf := 0 }) ∧ 1 ≤ 4) :=
  ⟨cursor_only_advances.1 { pos := 2, wrapped := false, len := 10, buf := 0 } 3 (by decide),
   ⟨rfl, cursor_only_advances.2.2.1 4 .little [some [1, 2, 3, 4, 5]]
      { pos := 1, wrapped := false, len := 5, buf := 0 } 0x05040302
      { pos := 5, wrapped := false, len := 5, buf := 0 } rfl (by decide)⟩,
   ⟨rfl, cursor_only_advances.2.2.2.2.2.2.1 [some [0, 0]]
      { pos := 1, wrapped := false, len := 2, buf := 0 } 7 [some [0, 7]]
      { pos := 2, wrapped := false, len := 2, buf := 0 } rfl (by decide)⟩,
   ⟨rfl, cursor_only_advances.2.2.2.2.2.2.2.1 5 [some [0, 0, 0, 0], some [1, 2, 3, 4]]
      { pos := 0, wrapped := false, len := 4, buf := 0 } 1 4
      [some [1, 3, 0, 0], some [1, 2, 3, 4]]
      { pos := 2, wrapped := false, len := 4, buf := 0 } rfl (by decide)⟩,
   ⟨rfl, cursor_only_advances.2.2.2.2.2.2.2.2.1 7 [some [0, 0, 0, 0], some [1, 2, 3, 4, 5, 6]]
      { pos := 1, wrapped := false, len := 4, buf := 0 }
      { pos := 2, wrapped := false, len := 6, buf := 1 }
      [some [0, 3, 4, 5], some [1, 2, 3, 4, 5, 6]]
      { pos := 4, wrapped := false, len := 4, buf := 0 } rfl (by decide)⟩⟩

theorem bb_get_ok {m : Memory} {bb : byte_buffer} {blk : List Nat}
    (hblk : block m bb.buf = some blk) (hpos : bb.pos < blk.length) :
    bb_get m bb = .ok (blk.getD bb.pos 0, { bb with pos := (bb.pos + 1) % UINT32_MOD }) := by
  simp only [bb_get, load_ok hblk hpos]

theorem put_uint_ok {w : Nat} {o : ByteOrder} {m : Memory} {bb : byte_buffer} {blk : List Nat}
    (v : Nat) (hblk : block m bb.buf = some blk) (hroom : bb.pos + w ≤ blk.length) :
    put_uint w o m bb v
      = .ok (update m bb.buf (blk.take bb.pos ++ to_bytes o w v ++ blk.drop (bb.pos + w)),
          { bb with pos := (bb.pos + w) % UINT32_MOD }) := by
  have hs := store_bytes_ok bb.pos (to_bytes o w v) hblk (by rw [length_to_bytes]; exact hroom)
  rw [length_to_bytes] at hs
  simp only [put_uint, hs]

/-- Counterexample to C19 as stated.  `bb_skip` by `2 ^ 32 - 1` from cursor 1 leaves the
cursor at 0.  On a zeroed buffer of capacity `2 ^ 32`: `bb_get` and `bb_put` at cursor
`2 ^ 32 - 1`, and `bb_get_int` and `bb_put_int` at cursor `2 ^ 32 - 4`, all return and
leave the cursor at 0. -/
theorem cursor_wraps_counterexample :
    (bb_skip { pos := 1, wrapped := false, len := 4, buf := 0 } (UINT32_MOD - 1)).pos = 0 ∧
    (∃ x bb1, bb_get (bb_new [] UINT32_MOD).1
        (bb_skip (bb_new [] UINT32_MOD).2 (UINT32_MOD - 1)) = .ok (x, bb1) ∧
      bb1.pos < (bb_skip (bb_new [] UINT32_MOD).2 (UINT32_MOD - 1)).pos) ∧
    (∃ m1 bb1, bb_put (bb_new [] UINT32_MOD).1
        (bb_skip (bb_new [] UINT32_MOD).2 (UINT32_MOD - 1)) 7 = .ok (m1, bb1) ∧
      bb1.pos < (bb_skip (bb_new [] UINT32_MOD).2 (UINT32_MOD - 1)).pos) ∧
    (∃ x bb1, bb_get_int .little (bb_new [] UINT32_MOD).1
        (bb_skip (bb_new [] UINT32_MOD).2 (UINT32_MOD - 4)) = .ok (x, bb1) ∧
      bb1.pos < (bb_skip (bb_new [] UINT32_MOD).2 (UINT32_MOD - 4)).pos) ∧
    (∃ m1 bb1, bb_put_int .little (bb_new [] UINT32_MOD).1
        (bb_skip (bb_new [] UINT32_MOD).2 (UINT32_MOD - 4)) 7 = .ok (m1, bb1) ∧
      bb1.pos < (bb_skip (bb_new [] UINT32_MOD).2 (UINT32_MOD - 4)).pos) := by
  have hb1 : block (bb_new [] UINT32_MOD).1
      (bb_skip (bb_new [] UINT32_MOD).2 (UINT32_MOD - 1)).buf
      = some (List.replicate UINT32_MOD 0) := rfl
  have hb4 : block (bb_new [] UINT32_MOD).1
      (bb_skip (bb_new [] UINT32_MOD).2 (UINT32_MOD - 4)).buf
      = some (List.replicate UINT32_MOD 0) := rfl
  refine ⟨by decide, ?_, ?_, ?_, ?_⟩
  · exact ⟨_, _, bb_get_ok hb1 (by rw [List.length_replicate]; decide), by decide⟩
  · exact ⟨_, _, bb_put_room 7 hb1 (by decide) (by rw [List.length_replicate]; decide),
      by decide⟩
  · exact ⟨_, _, @get_uint_ok 4 .little _ _ _ hb4 (by rw [List.length_replicate]; decide),
      by decide⟩
  · exact ⟨_, _, @put_uint_ok 4 .little _ _ _ 7 hb4 (by rw [List.length_replicate]; decide),
      by decide⟩

/-! ## The bound `pos ≤ len` on the byte-level write path -/

theorem bb_put_returns {m : Memory} {bb : byte_buffer} {d : List Nat} (v : Nat)
    (hblk : block m bb.buf = some d) (hlen : bb.len ≤ d.length) :
    ∃ m1 bb1 d1, bb_put m bb v = .ok (m1, bb1) ∧ block m1 bb.buf = some d1 ∧
      d1.length = d.length ∧ bb1.buf = bb.buf ∧ bb1.len = bb.len ∧
      ∀ q, q ≠ bb.buf → block m1 q = block m q := by
  by_cases hfull : bb.len ≤ bb.pos
  · exact ⟨m, bb, d, bb_put_full m bb v hfull, hblk, rfl, rfl, rfl, fun _ _ => rfl⟩
  · refine ⟨_, _, _, bb_put_room v hblk (by omega) hlen,
      block_update_same _ (block_lt hblk), by simp, rfl, rfl, ?_⟩
    intro q hq
    exact block_update_ne _ (Ne.symm hq)

theorem bb_put_bytes_loop_returns (arr len : Nat) {a : List Nat} (ha : len ≤ a.length)
    (h32 : len + 1 < UINT32_MOD) (fuel : Nat) :
    ∀ (m : Memory) (bb : byte_buffer) (i : Nat) (d : List Nat), block m arr = some a →
      block m bb.buf = some d → bb.len ≤ d.length → arr ≠ bb.buf → len + 1 - i < 2 * fuel →
      ∃ r, bb_put_bytes_loop arr len fuel m bb i = .ok r := by
  induction fuel with
  | zero => intro m bb i d _ _ _ _ hf; omega
  | succ fuel ih =>
    intro m bb i d harr hblk hlen hne hf
    unfold bb_put_bytes_loop
    by_cases hlt : i < len
    · have hmod1 : (i + 1) % UINT32_MOD = i + 1 := Nat.mod_eq_of_lt (by omega)
      have hmod : ((i + 1) % UINT32_MOD + 1) % UINT32_MOD = i + 2 := by
        rw [hmod1]
        exact Nat.mod_eq_of_lt (by omega)
      rw [if_pos hlt, load_ok harr (by omega), hmod]
      simp only
      obtain ⟨m1, bb1, d1, hput, hb1, hl1, hbuf, hlen1, hfr⟩ :=
        bb_put_returns (a.getD i 0) hblk hlen
      rw [hput]
      simp only
      exact ih m1 bb1 (i + 2) d1 (by rw [hfr _ hne, harr]) (by rw [hbuf]; exact hb1)
        (by omega) (by rw [hbuf]; exact hne) (by omega)
    · rw [if_neg hlt]
      exact ⟨_, rfl⟩

theorem bb_resize_returns {m : Memory} {bb : byte_buffer} {blk : List Nat} (new_len : Nat)
    (hblk : block m bb.buf = some blk) (hlen : bb.len ≤ blk.length) :
    ∃ r, bb_resize m bb new_len = .ok r := by
  by_cases hw : bb.wrapped = true
  · exact ⟨(m, bb, false), by simp [bb_resize, hw]⟩
  · have hlt : bb.buf < m.length := block_lt hblk
    have hne : m.length ≠ bb.buf := by omega
    have hcopy : (if new_len ≥ bb.len then bb.len else new_len) = min bb.len new_len := by
      split <;> omega
    have hd : block (m ++ [some (List.replicate new_len 0)]) m.length
        = some (List.replicate new_len 0) := block_append_new m _
    have hs : block (m ++ [some (List.replicate new_len 0)]) bb.buf = some blk := by
      rw [block_append_old _ hlt, hblk]
    have hcp := memcpy_ok (n := min bb.len new_len) hd hs (by simp) (by omega)
    have hs2 : block (update (m ++ [some (List.replicate new_len 0)]) m.length
        (blk.take (min bb.len new_len)
          ++ (List.replicate new_len 0).drop (min bb.len new_len)))
        bb.buf = some blk := by
      rw [block_update_ne _ hne, hs]
    have hfree := free_ok hs2
    simp only [bb_resize, hw, calloc, hcopy, hcp, hfree]
    simp

theorem bb_new_copy_struct {m m1 : Memory} {junk : Nat → Nat} {buf len : Nat}
    {bb1 : byte_buffer} (h : bb_new_copy m junk buf len = .ok (m1, bb1)) :
    bb1 = { pos := 0, wrapped := false, len := len, buf := m.length } := by
  simp only [bb_new_copy, malloc] at h
  split at h
  · simp only [Except.ok.injEq, Prod.mk.injEq] at h
    exact h.2.symm
  · simp at h

theorem bb_clone_struct {m m1 : Memory} {junk : Nat → Nat} {bb bb1 : byte_buffer}
    (h : bb_clone m junk bb = .ok (m1, bb1)) :
    bb1 = { pos := bb.pos, wrapped := false, len := bb.len, buf := m.length } := by
  unfold bb_clone at h
  split at h
  · next m2 ret hc =>
    simp only [Except.ok.injEq, Prod.mk.injEq] at h
    rw [← h.2, bb_new_copy_struct hc]
  · simp at h

theorem bb_resize_struct {m m1 : Memory} {bb bb1 : byte_buffer} {new_len : Nat} {r : Bool}
    (h : bb_resize m bb new_len = .ok (m1, bb1, r)) : bb1 = bb ∨ bb1.pos = 0 := by
  unfold bb_resize at h
  split at h
  · simp only [Except.ok.injEq, Prod.mk.injEq] at h
    exact Or.inl h.2.1.symm
  · simp only [calloc] at h
    split at h
    · simp at h
    · split at h
      · simp at h
      · simp only [Except.ok.injEq, Prod.mk.injEq] at h
        right
        rw [← h.2.1]

theorem bb_new_copy_returns {m : Memory} {s : List Nat} (junk : Nat → Nat) {buf len : Nat}
    (hs : block m buf = some s) (hlen : len ≤ s.length) :
    ∃ r, bb_new_copy m junk buf len = .ok r := by
  have hd : block (m ++ [some ((List.range len).map junk)]) m.length
      = some ((List.range len).map junk) := block_append_new m _
  have hs1 : block (m ++ [some ((List.range len).map junk)]) buf = some s := by
    rw [block_append_old _ (block_lt hs), hs]
  have hcp := memcpy_ok (n := len) hd hs1 (by simp) hlen
  simp only [bb_new_copy, malloc, hcp]
  exact ⟨_, rfl⟩

/-- C20: the bound `pos ≤ len`.  Every constructor (`bb_new`, `bb_new_default`,
`bb_new_wrap`, `bb_new_copy`) returns a buffer with cursor 0, hence within its capacity.
For every buffer satisfying the bound, in any memory and with any fuel, whatever buffer
`bb_put`, `bb_put_at`, `bb_put_bytes`, `bb_put_bb` (on `dest`), `bb_clear`, `bb_replace`,
`bb_clone` or `bb_resize` (for any new length, smaller than the old cursor included)
returns satisfies the bound again.  And the calls do return: on a buffer whose storage
is live and holds at least `len` bytes, `bb_put`, `bb_put_at`, `bb_clear`, `bb_clone` and
`bb_resize` always return, and so do the three loops `bb_replace`, `bb_put_bb` and
`bb_put_bytes` when the capacities are below `2 ^ 32`, the source is live in a block of
its own, and the fuel exceeds the length of the loop. -/
theorem cursor_within_capacity :
    (∀ m n, (bb_new m n).2.pos ≤ (bb_new m n).2.len) ∧
    (∀ m, (bb_new_default m).2.pos ≤ (bb_new_default m).2.len) ∧
    (∀ buf len, (bb_new_wrap buf len).pos ≤ (bb_new_wrap buf len).len) ∧
    (∀ m junk buf len,
      (∀ m1 bb1, bb_new_copy m junk buf len = .ok (m1, bb1) → bb1.pos ≤ bb1.len) ∧
      (∀ s, block m buf = some s → len ≤ s.length →
        ∃ r, bb_new_copy m junk buf len = .ok r)) ∧
    (∀ m bb, bb.pos ≤ bb.len →
      (∀ v m1 bb1, bb_put m bb v = .ok (m1, bb1) → bb1.pos ≤ bb1.len) ∧
      (∀ v i m1 bb1, bb_put_at m bb v i = .ok (m1, bb1) → bb1.pos ≤ bb1.len) ∧
      (∀ fuel arr len m1 bb1, bb_put_bytes fuel m bb arr len = .ok (m1, bb1) →
        bb1.pos ≤ bb1.len) ∧
      (∀ fuel src m1 bb1, bb_put_bb fuel m bb src = .ok (m1, bb1) → bb1.pos ≤ bb1.len) ∧
      (∀ m1 bb1, bb_clear m bb = .ok (m1, bb1) → bb1.pos ≤ bb1.len) ∧
      (∀ fuel key rep start first m1 bb1,
        bb_replace fuel m bb key rep start first = .ok (m1, bb1) → bb1.pos ≤ bb1.len) ∧
      (∀ junk m1 bb1, bb_clone m junk bb = .ok (m1, bb1) → bb1.pos ≤ bb1.len) ∧
      (∀ new_len m1 bb1 r, bb_resize m bb new_len = .ok (m1, bb1, r) →
        bb1.pos ≤ bb1.len)) ∧
    (∀ m bb d, block m bb.buf = some d → bb.len ≤ d.length → bb.pos ≤ bb.len →
      (∀ v, ∃ r, bb_put m bb v = .ok r) ∧
      (∀ v i, ∃ r, bb_put_at m bb v i = .ok r) ∧
      (∃ r, bb_clear m bb = .ok r) ∧
      (∀ junk, ∃ r, bb_clone m junk bb = .ok r) ∧
      (∀ new_len, ∃ r, bb_resize m bb new_len = .ok r) ∧
      (∀ fuel key rep start first, bb.len < UINT32_MOD → bb.len < fuel →
        ∃ r, bb_replace fuel m bb key rep start first = .ok r) ∧
      (∀ fuel src s, block m src.buf = some s → src.len ≤ s.length → bb.buf ≠ src.buf →
        bb.len < UINT32_MOD → src.len < UINT32_MOD → src.len < fuel →
        ∃ r, bb_put_bb fuel m bb src = .ok r) ∧
      (∀ fuel arr len a, block m arr = some a → len ≤ a.length → arr ≠ bb.buf →
        len + 1 < UINT32_MOD → len < fuel →
        ∃ r, bb_put_bytes fuel m bb arr len = .ok r)) := by
  refine ⟨fun _ _ => Nat.zero_le _, fun _ => Nat.zero_le _, fun _ _ => Nat.zero_le _,
    ?_, ?_, ?_⟩
  · intro m junk buf len
    refine ⟨?_, fun s hs hlen => bb_new_copy_returns junk hs hlen⟩
    intro m1 bb1 h
    rw [bb_new_copy_struct h]
    exact Nat.zero_le _
  · intro m bb hinv
    refine ⟨?_, ?_, ?_, ?_, ?_, ?_, ?_, ?_⟩
    · intro v m1 bb1 h
      exact bb_put_bound h hinv
    · intro v i m1 bb1 h
      rw [bb_put_at_struct h]
      exact hinv
    · intro fuel arr len m1 bb1 h
      exact bb_put_bytes_loop_inv (fun b => b.pos ≤ b.len)
        (fun _ _ _ _ _ hb hput => bb_put_bound hput hb) arr len fuel m bb 0 m1 bb1 hinv h
    · intro fuel src m1 bb1 h
      exact bb_put_bb_loop_inv (fun b => b.pos ≤ b.len)
        (fun _ _ _ _ _ hb hput => bb_put_bound hput hb) src fuel m bb src.pos m1 bb1 hinv h
    · intro m1 bb1 h
      rw [bb_clear_struct h]
      exact hinv
    · intro fuel key rep start first m1 bb1 h
      rw [bb_replace_loop_struct bb key rep first fuel m start m1 bb1 h]
      exact hinv
    · intro junk m1 bb1 h
      rw [bb_clone_struct h]
      exact hinv
    · intro new_len m1 bb1 r h
      rcases bb_resize_struct h with h1 | h1
      · rw [h1]
        exact hinv
      · rw [h1]
        exact Nat.zero_le _
  · intro m bb d hblk hlen hinv
    refine ⟨?_, ?_, ?_, ?_, ?_, ?_, ?_, ?_⟩
    · intro v
      obtain ⟨m1, bb1, _, hput, _⟩ := bb_put_returns v hblk hlen
      exact ⟨_, hput⟩
    · intro v i
      by_cases hi : bb.len ≤ i
      · exact ⟨_, bb_put_at_dropped m bb v i hi⟩
      · exact ⟨_, bb_put_at_ok v hblk (by omega) hlen⟩
    · exact ⟨_, bb_clear_ok hblk hlen⟩
    · intro junk
      obtain ⟨m1, hc, _⟩ := bb_clone_ok junk hblk hlen
      exact ⟨_, hc⟩
    · intro new_len
      exact bb_resize_returns new_len hblk hlen
    · intro fuel key rep start first h32 hfuel
      cases first with
      | false =>
        obtain ⟨s1, hr, _⟩ := bb_replace_loop_all bb key rep h32 fuel m start d hblk hlen
          (by omega)
        exact ⟨_, hr⟩
      | true =>
        obtain ⟨s1, hr, _⟩ := bb_replace_loop_first bb key rep h32 fuel m start d hblk hlen
          (by omega)
        exact ⟨_, hr⟩
    · intro fuel src s hs hslen hne h32 hs32 hfuel
      have heq := bb_put_bb_loop_eq src hslen hs32 fuel m bb src.pos hs hne (by omega)
      have hdrop := put_each_drop ((s.take src.len).drop src.pos) hblk hinv hlen h32
      exact ⟨_, by unfold bb_put_bb; rw [heq, hdrop]⟩
    · intro fuel arr len a harr ha hne h32 hfuel
      exact bb_put_bytes_loop_returns arr len ha h32 fuel m bb 0 d harr hblk hlen hne
        (by omega)

/-- Witness of C20: a 4-byte owned buffer with cursor 3; a put, a bulk put, a
buffer-to-buffer put and a resize to 2 bytes (below the old cursor) return buffers with
the cursor within the capacity. -/
theorem cursor_within_capacity_witness :
    (bb_put [some [0, 0, 0, 0]] { pos := 3, wrapped := false, len := 4, buf := 0 } 7
        = .ok ([some [0, 0, 0, 7]], { pos := 4, wrapped := false, len := 4, buf := 0 }) ∧
      4 ≤ 4) ∧
    (bb_put_bytes 5 [some [0, 0, 0, 0], some [1, 2, 3, 4]]
        { pos := 3, wrapped := false, len := 4, buf := 0 } 1 4
        = .ok ([some [0, 0, 0, 1], some [1, 2, 3, 4]],
            { pos := 4, wrapped := false, len := 4, buf := 0 }) ∧ 4 ≤ 4) ∧
    (bb_put_bb 5 [some [0, 0, 0, 0], some [1, 2, 3, 4]]
        { pos := 3, wrapped := false, len := 4, buf := 0 }
        { pos := 0, wrapped := false, len := 4, buf := 1 }
        = .ok ([some [0, 0, 0, 1], some [1, 2, 3, 4]],
            { pos := 4, wrapped := false, len := 4, buf := 0 }) ∧ 4 ≤ 4) ∧
    (bb_resize [some [1, 2, 3, 4]] { pos := 3, wrapped := false, len := 4, buf := 0 } 2
        = .ok ([none, some [1, 2]], { pos := 0, wrapped := false, len := 2, buf := 1 }, true) ∧
      0 ≤ 2) :=
  ⟨⟨rfl, (cursor_within_capacity.2.2.2.2.1 [some [0, 0, 0, 0]]
      { pos := 3, wrapped := false, len := 4, buf := 0 } (by decide)).1 7
      [some [0, 0, 0, 7]] { pos := 4, wrapped := false, len := 4, buf := 0 } rfl⟩,
   ⟨rfl, (cursor_within_capacity.2.2.2.2.1 [some [0, 0, 0, 0], some [1, 2, 3, 4]]
      { pos := 3, wrapped := false, len := 4, buf := 0 } (by decide)).2.2.1 5 1 4
      [some [0, 0, 0, 1], some [1, 2, 3, 4]]
      { pos := 4, wrapped := false, len := 4, buf := 0 } rfl⟩,
   ⟨rfl, (cursor_within_capacity.2.2.2.2.1 [some [0, 0, 0, 0], some [1, 2, 3, 4]]
      { pos := 3, wrapped := false, len := 4, buf := 0 } (by decide)).2.2.2.1 5
      { pos := 0, wrapped := false, len := 4, buf := 1 }
      [some [0, 0, 0, 1], some [1, 2, 3, 4]]
      { pos := 4, wrapped := false, len := 4, buf := 0 } rfl⟩,
   ⟨rfl, (cursor_within_capacity.2.2.2.2.1 [some [1, 2, 3, 4]]
      { pos := 3, wrapped := false, len := 4, buf := 0 } (by decide)).2.2.2.2.2.2.2 2
      [none, some [1, 2]] { pos := 0, wrapped := false, len := 2, buf := 1 } true rfl⟩⟩

end ByteBuffer
